import Mathlib

/-!
Verification development for the `account_move_csv_import` Odoo module
(file `wizard/account_move_import.py`).

The Python code works on "pivot" records: dictionaries with a fixed set of
keys whose values are dynamically typed (Python `None`, `False`, `str`,
`int`, `float`, `datetime`/`date`).  We shallowly embed those values as the
inductive type `PValue`, with Python truthiness (`truthy`) and Python `==`
(`pyEq`).  `PValue.none` models an *absent* dictionary key (whose `dict.get`
returns Python `None`); `PValue.pfalse` models the Python constant `False`
that the code uses as its explicit "no value" marker; `vint`/`vnum` model
Python `int`/`float` (both mapped to exact rationals, since no claim here
depends on binary floating-point rounding); `vdate` models `datetime`/`date`
values by an integer day encoding.

External collaborators (the Odoo ORM, `datetime.strptime`, Python `float()`
parsing, the company currency's `is_zero` comparator) are passed in as
explicit parameters, as the specification treats them as injected services.
-/

inductive PValue where
  | none
  | pfalse
  | vstr (s : String)
  | vint (n : Int)
  | vnum (q : Rat)
  | vdate (d : Int)
  deriving DecidableEq, Repr

/-- Python truthiness of an embedded value (`bool(v)`). -/
def truthy : PValue → Bool
  | .none => false
  | .pfalse => false
  | .vstr s => s != ""
  | .vint n => n != 0
  | .vnum q => q != 0
  | .vdate _ => true

/-- Python `==` on the embedded values.  Mirrors CPython semantics for the
value combinations that can actually occur in the pivot pipeline:
`None` equals only `None`; `False == 0` and `False == 0.0` are `True`;
numbers compare by value across `int`/`float`; `date`/`datetime` values
never compare equal to non-dates. -/
def pyEq : PValue → PValue → Bool
  | .none, .none => true
  | .pfalse, .pfalse => true
  | .pfalse, .vint n => n == 0
  | .vint n, .pfalse => n == 0
  | .pfalse, .vnum q => q == 0
  | .vnum q, .pfalse => q == 0
  | .vstr a, .vstr b => a == b
  | .vint a, .vint b => a == b
  | .vnum a, .vnum b => a == b
  | .vint a, .vnum b => (a : Rat) == b
  | .vnum a, .vint b => a == (b : Rat)
  | .vdate a, .vdate b => a == b
  | _, _ => false

/-- Numeric content of a value, as used by Python arithmetic
(`False` behaves as `0`).  Only applied to values that passed the
`isinstance(..., (float, int))` validation gate. -/
def numOf : PValue → Rat
  | .vint n => (n : Rat)
  | .vnum q => q
  | _ => 0

/-- `isinstance(v, (float, int))` — note that Python `bool` is a subclass of
`int`, so `False` passes this test. -/
def isNumVal : PValue → Bool
  | .vint _ => true
  | .vnum _ => true
  | .pfalse => true
  | _ => false

/-! ### Python `str.strip()` -/

def isWS (c : Char) : Bool := c.isWhitespace

def dropLeadWS (l : List Char) : List Char := l.dropWhile isWS

def dropTrailWS (l : List Char) : List Char := (l.reverse.dropWhile isWS).reverse

def stripL (l : List Char) : List Char := dropTrailWS (dropLeadWS l)

/-- Python `s.strip()`: remove leading and trailing whitespace. -/
def pstrip (s : String) : String := String.mk (stripL s.data)

theorem dropWhile_dropWhile (p : Char → Bool) (l : List Char) :
    List.dropWhile p (List.dropWhile p l) = List.dropWhile p l := by
  induction l with
  | nil => rfl
  | cons a t ih =>
    by_cases h : p a
    · simp [List.dropWhile_cons, h, ih]
    · simp [List.dropWhile_cons, h]

theorem exists_append_dropWhile (p : Char → Bool) (l : List Char) :
    ∃ t, t ++ List.dropWhile p l = l := by
  induction l with
  | nil => exact ⟨[], rfl⟩
  | cons a t ih =>
    by_cases h : p a
    · obtain ⟨u, hu⟩ := ih
      exact ⟨a :: u, by simp [List.dropWhile_cons, h, hu]⟩
    · exact ⟨[], by simp [List.dropWhile_cons, h]⟩

theorem dropTrailWS_idem (m : List Char) :
    dropTrailWS (dropTrailWS m) = dropTrailWS m := by
  unfold dropTrailWS
  rw [List.reverse_reverse, dropWhile_dropWhile]

theorem dropLeadWS_fixed_of_head (a : Char) (t : List Char) (h : isWS a = false) :
    dropLeadWS (a :: t) = a :: t := by
  simp [dropLeadWS, List.dropWhile_cons, h]

theorem dropLeadWS_of_fixed (m : List Char) (h : dropLeadWS m = m) :
    dropLeadWS (dropTrailWS m) = dropTrailWS m := by
  obtain ⟨t, ht⟩ := exists_append_dropWhile isWS m.reverse
  have hm : dropTrailWS m ++ t.reverse = m := by
    have := congrArg List.reverse ht
    simpa [dropTrailWS, List.reverse_append] using this
  cases hdt : dropTrailWS m with
  | nil => simp [dropLeadWS]
  | cons a u =>
    have hmeq : m = a :: (u ++ t.reverse) := by
      rw [← hm, hdt]; simp
    have ha : isWS a = false := by
      by_contra hcon
      have ha' : isWS a = true := by
        cases hx : isWS a
        · exact absurd hx hcon
        · rfl
      have hlen : (dropLeadWS m).length ≤ (u ++ t.reverse).length := by
        rw [hmeq]
        simp only [dropLeadWS, List.dropWhile_cons, ha', if_true]
        obtain ⟨w, hw⟩ := exists_append_dropWhile isWS (u ++ t.reverse)
        have hwl := congrArg List.length hw
        simp only [List.length_append] at hwl
        simp only [List.length_append]
        omega
      rw [h, hmeq] at hlen
      simp only [List.length_cons] at hlen
      omega
    exact dropLeadWS_fixed_of_head a u ha

theorem stripL_idem (m : List Char) : stripL (stripL m) = stripL m := by
  unfold stripL
  rw [dropLeadWS_of_fixed (dropLeadWS m) (dropWhile_dropWhile isWS m),
    dropTrailWS_idem]

theorem pstrip_idem (s : String) : pstrip (pstrip s) = pstrip s := by
  unfold pstrip
  exact congrArg String.mk (stripL_idem s.data)

/-! ### Pivot lines and the Normalizer -/

/-- One pivot record (the canonical intermediate representation).  Every
field is dynamically typed; `PValue.none` means the key is absent from the
Python dictionary. -/
structure PivotLine where
  line : PValue
  date : PValue
  journal : PValue
  account : PValue
  partner : PValue
  analytic : PValue
  name : PValue
  debit : PValue
  credit : PValue
  ref : PValue
  reconcile_ref : PValue
  move_name : PValue
  deriving DecidableEq, Repr

/-- One step of `clean_strip_pivot` on a single present dictionary value:
falsy values are replaced by `False`; truthy strings are stripped, an
all-whitespace string becoming `False`; other truthy values are untouched.
An absent key is not iterated by `l.items()` and stays absent. -/
def cleanVal : PValue → PValue
  | .none => .none
  | .pfalse => .pfalse
  | .vstr s =>
    if s == "" then .pfalse
    else if pstrip s == "" then .pfalse else .vstr (pstrip s)
  | .vint n => if n == 0 then .pfalse else .vint n
  | .vnum q => if q == 0 then .pfalse else .vnum q
  | .vdate d => .vdate d

/-- `clean_strip_pivot` applied to one line: `cleanVal` on every field. -/
def clean_strip_line (l : PivotLine) : PivotLine where
  line := cleanVal l.line
  date := cleanVal l.date
  journal := cleanVal l.journal
  account := cleanVal l.account
  partner := cleanVal l.partner
  analytic := cleanVal l.analytic
  name := cleanVal l.name
  debit := cleanVal l.debit
  credit := cleanVal l.credit
  ref := cleanVal l.ref
  reconcile_ref := cleanVal l.reconcile_ref
  move_name := cleanVal l.move_name

/-- `clean_strip_pivot` (wizard method, lines 216-223 of the source). -/
def clean_strip_pivot (pivot : List PivotLine) : List PivotLine :=
  pivot.map clean_strip_line

/-- The caller-supplied override configuration read by `update_pivot`.
`force_journal_code` models `self.force_journal_id and
self.force_journal_id.code or False`. -/
structure ImportConfig where
  force_move_date : PValue
  force_move_ref : PValue
  force_move_line_name : PValue
  force_journal_code : PValue
  deriving DecidableEq, Repr

/-- `update_pivot` on one line (source lines 225-243): truthy forced values
replace date/name/ref/journal unconditionally, and falsy debit/credit
become the float `0.0`.  The source reads `l['credit']`/`l['debit']` with
direct indexing, which presupposes the keys are present (every parser
populates both); an absent key is modeled as falsy here. -/
def update_line (cfg : ImportConfig) (l : PivotLine) : PivotLine :=
  { l with
    date := if truthy cfg.force_move_date then cfg.force_move_date else l.date
    name := if truthy cfg.force_move_line_name then cfg.force_move_line_name
      else l.name
    ref := if truthy cfg.force_move_ref then cfg.force_move_ref else l.ref
    journal := if truthy cfg.force_journal_code then cfg.force_journal_code
      else l.journal
    credit := if truthy l.credit then l.credit else .vnum 0
    debit := if truthy l.debit then l.debit else .vnum 0 }

/-- `update_pivot` (source lines 225-243). -/
def update_pivot (cfg : ImportConfig) (pivot : List PivotLine) : List PivotLine :=
  pivot.map (update_line cfg)

/-- The Normalizer: `clean_strip_pivot` followed by `update_pivot`, exactly
as invoked by `run_import` (source lines 193-194). -/
def normalize_pivot (cfg : ImportConfig) (pivot : List PivotLine) : List PivotLine :=
  update_pivot cfg (clean_strip_pivot pivot)

theorem cleanVal_idem (v : PValue) : cleanVal (cleanVal v) = cleanVal v := by
  cases v with
  | none => rfl
  | pfalse => rfl
  | vstr s =>
    by_cases h0 : s == ""
    · simp [cleanVal, h0]
    · by_cases h1 : pstrip s == ""
      · simp [cleanVal, h0, h1]
      · have h3 : (pstrip s == "") = false := by simpa using h1
        have h2 : (pstrip (pstrip s) == "") = false := by
          rw [pstrip_idem]; exact h3
        simp [cleanVal, h0, h1, h3, h2, pstrip_idem]
  | vint n =>
    by_cases h : n == 0
    · simp [cleanVal, h]
    · simp [cleanVal, h]
  | vnum q =>
    by_cases h : q == 0
    · simp [cleanVal, h]
    · simp [cleanVal, h]
  | vdate d => rfl

theorem override_field_idem (F x : PValue) :
    (if truthy F then F else cleanVal (if truthy F then F else cleanVal x))
      = if truthy F then F else cleanVal x := by
  by_cases h : truthy F
  · simp [h]
  · simp [h, cleanVal_idem]

theorem zero_fill_idem (x : PValue) :
    (if truthy (cleanVal (if truthy (cleanVal x) then cleanVal x else .vnum 0))
        then cleanVal (if truthy (cleanVal x) then cleanVal x else .vnum 0)
        else .vnum 0)
      = if truthy (cleanVal x) then cleanVal x else .vnum 0 := by
  by_cases h : truthy (cleanVal x)
  · simp [h, cleanVal_idem]
  · rw [if_neg h]
    have h1 : cleanVal (PValue.vnum 0) = PValue.pfalse := by simp [cleanVal]
    rw [h1]
    rfl

theorem normalize_line_idem (cfg : ImportConfig) (l : PivotLine) :
    update_line cfg (clean_strip_line (update_line cfg (clean_strip_line l)))
      = update_line cfg (clean_strip_line l) := by
  cases l with
  | mk li da jo ac pa an na de cr re rr mn =>
    simp only [clean_strip_line, update_line, PivotLine.mk.injEq]
    exact ⟨cleanVal_idem li, override_field_idem _ da, override_field_idem _ jo,
      cleanVal_idem ac, cleanVal_idem pa, cleanVal_idem an,
      override_field_idem _ na, zero_fill_idem de, zero_fill_idem cr,
      override_field_idem _ re, cleanVal_idem rr, cleanVal_idem mn⟩

/-- C9: the Normalizer (clean/strip pass then override pass) is idempotent:
re-running it on its own output is the identity, for every pivot sequence
and every override configuration. -/
theorem normalizer_idempotent (cfg : ImportConfig) (pivot : List PivotLine) :
    normalize_pivot cfg (normalize_pivot cfg pivot) = normalize_pivot cfg pivot := by
  unfold normalize_pivot update_pivot clean_strip_pivot
  simp only [List.map_map]
  apply List.map_congr_left
  intro l _
  simp only [Function.comp]
  exact normalize_line_idem cfg l

/-! ### Directories (speeddict) and account resolution -/

/-- Lookup in a speed dictionary: an ordered association list modelling a
Python dict built by insertion (`_prepare_speeddict`), mapping uppercased
codes to internal ids.  Iteration order is insertion order. -/
def lookupStr (d : List (String × Nat)) (k : String) : Option Nat :=
  (d.find? (fun kv => kv.1 == k)).map (fun kv => kv.2)

/-- Python `s.startswith(pre)` on the character lists. -/
def startsWithL : List Char → List Char → Bool
  | _, [] => true
  | [], _ :: _ => false
  | a :: s, b :: p => a == b && startsWithL s p

def py_startswith (s pre : String) : Bool := startsWithL s.data pre.data

/-- The trailing-zero truncation `while` loop of the account matcher
(source lines 679-684), expressed on the reversed character list of the
code: while the last character is a zero, drop it and retry an exact
lookup of the non-empty shortened code, stopping at the first hit. -/
def trunc_zero_loop (d : List (String × Nat)) : List Char → Option Nat
  | [] => Option.none
  | c :: rest =>
    if c == '0' then
      if rest.isEmpty then Option.none
      else
        match lookupStr d (String.mk rest.reverse) with
        | Option.some i => Option.some i
        | Option.none => trunc_zero_loop d rest
    else Option.none

/-- The first directory entry whose code starts with the import code
(source lines 686-693), in directory iteration order. -/
def startswith_scan (d : List (String × Nat)) (code : String) : Option Nat :=
  (d.find? (fun kv => py_startswith kv.1 code)).map (fun kv => kv.2)

/-- Which stage of the account matcher produced the resolved id. -/
inductive AccMatch where
  | exact (i : Nat)
  | trunc (i : Nat)
  | approx (i : Nat)
  | unresolved
  deriving DecidableEq, Repr

/-- Account resolution (source lines 675-695): exact dictionary hit, else
the trailing-zero truncation loop, else the first `startswith` directory
entry (the logged "approximate match"), else unresolved. -/
def resolve_account (d : List (String × Nat)) (code : String) : AccMatch :=
  match lookupStr d code with
  | Option.some i => AccMatch.exact i
  | Option.none =>
    match trunc_zero_loop d code.data.reverse with
    | Option.some i => AccMatch.trunc i
    | Option.none =>
      match startswith_scan d code with
      | Option.some i => AccMatch.approx i
      | Option.none => AccMatch.unresolved

/-- Modelled from the spec wording of §4.3(b): the list of truncation
candidates — the code with one trailing `'0'` removed, then two, and so
on — on the reversed character list. -/
def spec_trunc_cands : List Char → List (List Char)
  | [] => []
  | c :: rest => if c == '0' then rest :: spec_trunc_cands rest else []

/-- Modelled from the spec wording of §4.3(b): retry an exact match at
each non-empty shortened length, stopping at the first hit. -/
def spec_trunc_lookup (d : List (String × Nat)) (code : String) : Option Nat :=
  ((spec_trunc_cands code.data.reverse).filter (fun r => !r.isEmpty)).findSome?
    (fun r => lookupStr d (String.mk r.reverse))

/-- Modelled from the spec wording of §4.3: resolution proceeds exact →
trailing-zero truncation → first prefix hit → unresolved, stopping at the
first success. -/
def specResolveAccount (d : List (String × Nat)) (code : String) : AccMatch :=
  match lookupStr d code with
  | Option.some i => AccMatch.exact i
  | Option.none =>
    match spec_trunc_lookup d code with
    | Option.some i => AccMatch.trunc i
    | Option.none =>
      match (d.find? (fun kv => py_startswith kv.1 code)).map (fun kv => kv.2) with
      | Option.some i => AccMatch.approx i
      | Option.none => AccMatch.unresolved

theorem trunc_loop_eq_spec (d : List (String × Nat)) (r : List Char) :
    trunc_zero_loop d r
      = ((spec_trunc_cands r).filter (fun x => !x.isEmpty)).findSome?
          (fun x => lookupStr d (String.mk x.reverse)) := by
  induction r with
  | nil => rfl
  | cons c rest ih =>
    by_cases hc : c == '0'
    · cases hrest : rest with
      | nil =>
        simp [trunc_zero_loop, spec_trunc_cands, hc]
      | cons b bs =>
        have hne : rest.isEmpty = false := by rw [hrest]; rfl
        rw [← hrest]
        simp only [trunc_zero_loop, spec_trunc_cands, hc, if_true, hne,
          Bool.not_false, List.filter_cons]
        rw [if_neg (by decide : ¬(false = true)), List.findSome?_cons]
        cases hl : lookupStr d (String.mk rest.reverse) with
        | none => simpa [hl] using ih
        | some i => simp [hl]
    · simp [trunc_zero_loop, spec_trunc_cands, hc]

/-- C3: account resolution proceeds in the exact order exact match →
trailing-zero truncation (first hit) → first starts-with directory entry →
unresolved, as a refinement of the spec-worded cascade; an exact match
never falls through to a fallback stage; and import code `611000` resolves
against a directory containing only `6110` via truncation. -/
theorem account_resolution_order (d : List (String × Nat)) (code : String) :
    resolve_account d code = specResolveAccount d code
    ∧ (∀ i, lookupStr d code = Option.some i
        → resolve_account d code = AccMatch.exact i)
    ∧ resolve_account [("6110", 5)] "611000" = AccMatch.trunc 5 := by
  refine ⟨?_, ?_, by decide⟩
  · unfold resolve_account specResolveAccount spec_trunc_lookup startswith_scan
    rw [trunc_loop_eq_spec]
  · intro i hi
    unfold resolve_account
    rw [hi]

/-- Concrete instantiation of `account_resolution_order`: an exact hit on
code `411000` resolves to the exact stage. -/
theorem account_resolution_order_witness :
    lookupStr [("411000", 3)] "411000" = Option.some 3
      ∧ resolve_account [("411000", 3)] "411000" = AccMatch.exact 3 :=
  ⟨by decide, (account_resolution_order [("411000", 3)] "411000").2.1 3 (by decide)⟩

/-! ### Error accumulation (the validation gate state) -/

/-- Structured form of the messages appended to `errors['other']`. -/
inductive OtherErr where
  | wrongAnaPctNumber (line : Int) (pct : String)
  | wrongAnaPctRange (line : Int) (pct : String)
  | missingDate (line : Int)
  | badDateFormat (line : Int) (v : PValue)
  | badCredit (line : Int) (v : PValue)
  | badDebit (line : Int) (v : PValue)
  | missingMoveName (line : Int)
  deriving DecidableEq, Repr

/-- The `errors` accumulator of `create_moves_from_pivot` (source line 668):
one keyed bucket per category (`setdefault(code, []).append(line)`) plus the
free-form `other` list. -/
structure Errors where
  journal : List (PValue × List Int)
  account : List (PValue × List Int)
  partner : List (PValue × List Int)
  analytic : List (PValue × List Int)
  other : List OtherErr
  deriving DecidableEq, Repr

def Errors.empty : Errors := ⟨[], [], [], [], []⟩

/-- `errors[key].setdefault(code, []).append(line)`: append the line number
under the code's entry, creating the entry at the end on first use. -/
def upsertLines (m : List (PValue × List Int)) (k : PValue) (n : Int) :
    List (PValue × List Int) :=
  match m with
  | [] => [(k, [n])]
  | (k0, ls) :: rest =>
    if pyEq k0 k then (k0, ls ++ [n]) :: rest
    else (k0, ls) :: upsertLines rest k n

/-- Whether the rendered error message would be non-empty, i.e. whether any
bucket holds at least one entry (source lines 750-762). -/
def hasErrors (e : Errors) : Bool :=
  !e.journal.isEmpty || !e.account.isEmpty || !e.partner.isEmpty
    || !e.analytic.isEmpty || !e.other.isEmpty

/-- Abort conditions of the import pipeline. -/
inductive ImpErr where
  | assertFail
  | crash
  | validation (e : Errors)
  | splitOneLine (line : Int)
  | unbalanced (balance : Rat)
  deriving DecidableEq, Repr

/-- The four speed dictionaries built by `_prepare_speeddict`. -/
structure SpeedDict where
  partner : List (String × Nat)
  journal : List (String × Nat)
  account : List (String × Nat)
  analytic : List (String × Nat)
  deriving DecidableEq, Repr

/-- Python `v in d` followed by `d[v]` for a string-keyed dict: a non-string
value is simply not a member. -/
def lookupP (d : List (String × Nat)) (v : PValue) : Option Nat :=
  match v with
  | .vstr s => lookupStr d s
  | _ => Option.none

/-! ### Analytic distribution parsing -/

/-- Python `s.split(c)` for a one-character separator, on character lists;
always returns at least one (possibly empty) part. -/
def splitChar (c : Char) : List Char → List (List Char)
  | [] => [[]]
  | a :: t =>
    match splitChar c t with
    | [] => [[]]
    | r :: rs => if a == c then [] :: r :: rs else (a :: r) :: rs

/-- Python `s.split(c)` for a one-character separator. -/
def pysplit (c : Char) (s : String) : List String :=
  (splitChar c s.data).map String.mk

/-- Python `s.replace(a, b)` for one-character arguments. -/
def replaceChar (a b : Char) (s : String) : String :=
  String.mk (s.data.map (fun c => if c == a then b else c))

/-- Python dict assignment `dist[k] = v`: overwrite in place, keeping the
original insertion position of the key. -/
def upsertQ (m : List (Nat × Rat)) (k : Nat) (v : Rat) : List (Nat × Rat) :=
  match m with
  | [] => [(k, v)]
  | (k0, v0) :: rest =>
    if k0 == k then (k0, v) :: rest else (k0, v0) :: upsertQ rest k v

/-- Parse of one `|`-separated analytic segment (source lines 704-720).
`pn` models Python `float()` parsing.  Returns `none` when the stripped
segment is empty (the segment is skipped), otherwise the sub-code, the
percentage retained for the distribution, and the "other" errors recorded
for this segment: a segment without `:` means 100; a non-numeric
percentage is an error and defaults to 1; an out-of-range numeric
percentage is an error but the parsed value is retained. -/
def ana_seg (pn : String → Option Rat) (n : Int) (seg : String) :
    Option (String × Rat × List OtherErr) :=
  let t := pstrip seg
  if t == "" then Option.none
  else
    match pysplit ':' t with
    | [] => Option.none
    | [c] => Option.some (pstrip c, 100, [])
    | ps =>
      let code := pstrip (String.intercalate ":" ps.dropLast)
      let pctStr := ps.getLastD ""
      let ready := replaceChar ',' '.' pctStr
      match pn ready with
      | Option.some p =>
        if p < 0 ∨ p > 100 then
          Option.some (code, p, [OtherErr.wrongAnaPctRange n pctStr])
        else Option.some (code, p, [])
      | Option.none => Option.some (code, 1, [OtherErr.wrongAnaPctNumber n pctStr])

/-- One iteration of the analytic `for` loop: record the segment's
percentage errors, then either enter the resolved sub-code into the
distribution or record an unresolved-analytic error. -/
def ana_fold_step (pn : String → Option Rat) (d : List (String × Nat)) (n : Int)
    (acc : List (Nat × Rat) × Errors) (seg : String) : List (Nat × Rat) × Errors :=
  match ana_seg pn n seg with
  | Option.none => acc
  | Option.some (code, pct, es) =>
    let st1 := { acc.2 with other := acc.2.other ++ es }
    match lookupStr d code with
    | Option.some i => (upsertQ acc.1 i pct, st1)
    | Option.none =>
      (acc.1, { st1 with analytic := upsertLines st1.analytic (.vstr code) n })

/-- Analytic distribution parsing (source lines 701-724): split the field
on `|` and fold the segments into a fresh distribution dict, threading the
error state. -/
def resolveAnalytic (pn : String → Option Rat) (d : List (String × Nat))
    (n : Int) (s : String) (st : Errors) : List (Nat × Rat) × Errors :=
  (pysplit '|' s).foldl (ana_fold_step pn d n) ([], st)

/-! ### Per-line resolution (the MATCHES + CHECKS loop, source lines 672-747) -/

/-- A resolved pivot line: the original fields plus the identifiers the
resolution loop writes into the dict. -/
structure RLine where
  line : Int
  date : PValue
  journal : PValue
  account : PValue
  partner : PValue
  analytic : PValue
  name : PValue
  debit : PValue
  credit : PValue
  ref : PValue
  reconcile_ref : PValue
  move_name : PValue
  account_id : Option Nat
  partner_id : Option Nat
  journal_id : Option Nat
  analytic_distribution : Option (List (Nat × Rat))
  deriving DecidableEq, Repr

/-- Account resolution step (source lines 675-695).  An absent `account`
key raises `KeyError`; a truthy non-string account value reaches
`code.startswith(...)`, which raises `TypeError` as soon as the directory
is non-empty. -/
def account_step (sd : SpeedDict) (n : Int) (a : PValue) (st : Errors) :
    Except ImpErr (Option Nat × Errors) :=
  match a with
  | .vstr s =>
    match resolve_account sd.account s with
    | AccMatch.exact i => .ok (Option.some i, st)
    | AccMatch.trunc i => .ok (Option.some i, st)
    | AccMatch.approx i => .ok (Option.some i, st)
    | AccMatch.unresolved =>
      .ok (Option.none, { st with account := upsertLines st.account a n })
  | .none => .error .crash
  | v =>
    if sd.account.isEmpty then
      .ok (Option.none, { st with account := upsertLines st.account v n })
    else .error .crash

/-- Partner resolution step (source lines 696-700). -/
def partner_step (sd : SpeedDict) (n : Int) (p : PValue) (st : Errors) :
    Option Nat × Errors :=
  if truthy p then
    match lookupP sd.partner p with
    | Option.some i => (Option.some i, st)
    | Option.none => (Option.none, { st with partner := upsertLines st.partner p n })
  else (Option.none, st)

/-- Analytic step (source lines 701-724): only entered for a truthy
analytic value; `.split` on a truthy non-string raises. -/
def ana_step (pn : String → Option Rat) (sd : SpeedDict) (n : Int)
    (a : PValue) (st : Errors) :
    Except ImpErr (Option (List (Nat × Rat)) × Errors) :=
  if truthy a then
    match a with
    | .vstr s =>
      let r := resolveAnalytic pn sd.analytic n s st
      .ok (Option.some r.1, r.2)
    | _ => .error .crash
  else .ok (Option.none, st)

/-- Journal resolution step (source lines 726-729): `l['journal']` raises
`KeyError` on an absent key; otherwise a plain membership test. -/
def journal_step (sd : SpeedDict) (n : Int) (j : PValue) (st : Errors) :
    Except ImpErr (Option Nat × Errors) :=
  match j with
  | .none => .error .crash
  | v =>
    match lookupP sd.journal v with
    | Option.some i => .ok (Option.some i, st)
    | Option.none => .ok (Option.none, { st with journal := upsertLines st.journal v n })

/-- Date check step (source lines 730-739).  `pd` models
`datetime.strptime(_, '%Y-%m-%d')`; any exception it raises on a truthy
non-date value (including `TypeError` on a non-string) is caught and
recorded as an "other" error. -/
def date_step (pd : String → Option Int) (n : Int) (dv : PValue) (st : Errors) :
    PValue × Errors :=
  if !truthy dv then (dv, { st with other := st.other ++ [OtherErr.missingDate n] })
  else
    match dv with
    | .vdate _ => (dv, st)
    | .vstr s =>
      match pd s with
      | Option.some d => (.vdate d, st)
      | Option.none => (dv, { st with other := st.other ++ [OtherErr.badDateFormat n dv] })
    | _ => (dv, { st with other := st.other ++ [OtherErr.badDateFormat n dv] })

/-- Credit scalar check (source lines 740-743).  The error message itself
reads `l['credit']`, so an absent key raises `KeyError` there. -/
def credit_step (n : Int) (v : PValue) (st : Errors) : Except ImpErr Errors :=
  if isNumVal v then .ok st
  else match v with
    | .none => .error .crash
    | _ => .ok { st with other := st.other ++ [OtherErr.badCredit n v] }

/-- Debit scalar check (source lines 744-747). -/
def debit_step (n : Int) (v : PValue) (st : Errors) : Except ImpErr Errors :=
  if isNumVal v then .ok st
  else match v with
    | .none => .error .crash
    | _ => .ok { st with other := st.other ++ [OtherErr.badDebit n v] }

/-- One iteration of the MATCHES + CHECKS loop (source lines 672-747):
the `assert` on the line number, then account, partner, analytic, journal,
date, credit and debit resolution in source order, threading the error
accumulator. -/
def resolveLine (sd : SpeedDict) (pn : String → Option Rat)
    (pd : String → Option Int) (st : Errors) (l : PivotLine) :
    Except ImpErr (RLine × Errors) :=
  match l.line with
  | .vint n =>
    if n == 0 then .error .assertFail
    else
      match account_step sd n l.account st with
      | .error e => .error e
      | .ok (accId, st1) =>
        let pr := partner_step sd n l.partner st1
        match ana_step pn sd n l.analytic pr.2 with
        | .error e => .error e
        | .ok (dist, st3) =>
          match journal_step sd n l.journal st3 with
          | .error e => .error e
          | .ok (jId, st4) =>
            let dr := date_step pd n l.date st4
            match credit_step n l.credit dr.2 with
            | .error e => .error e
            | .ok st6 =>
              match debit_step n l.debit st6 with
              | .error e => .error e
              | .ok st7 =>
                .ok ({ line := n, date := dr.1, journal := l.journal,
                       account := l.account, partner := l.partner,
                       analytic := l.analytic, name := l.name,
                       debit := l.debit, credit := l.credit, ref := l.ref,
                       reconcile_ref := l.reconcile_ref,
                       move_name := l.move_name, account_id := accId,
                       partner_id := pr.1, journal_id := jId,
                       analytic_distribution := dist }, st7)
  | _ => .error .assertFail

/-- The whole MATCHES + CHECKS loop over the pivot sequence. -/
def resolvePivot (sd : SpeedDict) (pn : String → Option Rat)
    (pd : String → Option Int) :
    Errors → List PivotLine → Except ImpErr (List RLine × Errors)
  | st, [] => .ok ([], st)
  | st, l :: ls =>
    match resolveLine sd pn pd st l with
    | .error e => .error e
    | .ok (rl, st1) =>
      match resolvePivot sd pn pd st1 ls with
      | .error e => .error e
      | .ok (rls, st2) => .ok (rl :: rls, st2)

/-! ### Kernel-computable rational arithmetic

The Batteries `Rat.add`/`Rat.sub` are `@[irreducible]`, which blocks
evaluation inside `decide`-based proofs about concrete runs.  `qadd` and
`qsub` are plain reducible definitions of the same operations (proved equal
to `+` and `-` below); the model uses them for all money arithmetic. -/

def qadd (a b : Rat) : Rat := mkRat (a.num * b.den + b.num * a.den) (a.den * b.den)

def qsub (a b : Rat) : Rat := qadd a (-b)

theorem qadd_eq (a b : Rat) : qadd a b = a + b := by
  rw [Rat.add_def, Rat.normalize_eq_mkRat]
  rfl

theorem qsub_eq (a b : Rat) : qsub a b = a - b := by
  unfold qsub
  rw [qadd_eq, ← sub_eq_add_neg]

/-- Sum of a list of rationals by `qadd`. -/
def qsum (l : List Rat) : Rat := l.foldl qadd 0

/-! ### The Move Splitter (EXTRACT MOVES, source lines 763-824) -/

inductive SplitMethod where
  | balanced
  | move_name
  deriving DecidableEq, Repr

/-- The wizard options read by the splitting loop. -/
structure SplitCfg where
  skip_null_lines : Bool
  split_move_method : SplitMethod
  date_by_move_line : Bool
  keep_odoo_move_name : Bool
  deriving DecidableEq, Repr

/-- The values assembled by `_prepare_move_line` (source lines 836-847);
`import_external_line` keeps the line-number part of
`import_external_id`, the sequence part being external. -/
structure MoveLine where
  credit : Rat
  debit : Rat
  name : PValue
  partner_id : Option Nat
  account_id : Option Nat
  analytic_distribution : Option (List (Nat × Rat))
  import_reconcile : PValue
  import_external_line : Int
  deriving DecidableEq, Repr

/-- The values assembled by `_prepare_move` (source lines 826-834) plus the
accumulated `line_ids`. -/
structure Move where
  journal_id : Option Nat
  ref : PValue
  date : PValue
  name : Option PValue
  line_ids : List MoveLine
  deriving DecidableEq, Repr

def _prepare_move (cfg : SplitCfg) (l : RLine) : Move :=
  { journal_id := l.journal_id, ref := l.ref, date := l.date,
    name := if truthy l.move_name && !cfg.keep_odoo_move_name
      then Option.some l.move_name else Option.none,
    line_ids := [] }

def _prepare_move_line (l : RLine) : MoveLine :=
  { credit := numOf l.credit, debit := numOf l.debit, name := l.name,
    partner_id := l.partner_id, account_id := l.account_id,
    analytic_distribution := l.analytic_distribution,
    import_reconcile := l.reconcile_ref, import_external_line := l.line }

/-- The loop state of the EXTRACT MOVES loop.  `cur_move = none` models the
initial empty dict `cur_move = {}`; `cur_journal_id = none`,
`cur_move_name = pfalse` and `cur_date = pfalse` model the `False`
initialisations.  `late_errors` receives the `errors['other']` appends made
*after* the validation gate already fired (missing journal entry number);
the source never reads them again. -/
structure SplitState where
  moves : List Move
  cur_move : Option Move
  cur_journal_id : Option Nat
  cur_move_name : PValue
  cur_date : PValue
  cur_balance : Rat
  late_errors : List OtherErr
  deriving DecidableEq, Repr

def initSplitState : SplitState :=
  { moves := [], cur_move := Option.none, cur_journal_id := Option.none,
    cur_move_name := .pfalse, cur_date := .pfalse, cur_balance := 0,
    late_errors := [] }

/-- Python `cur_journal_id == l['journal_id']` where `cur_journal_id` is
initially `False` and journal ids are ints (`False == j` iff `j == 0`).
A line whose `journal_id` was never written would raise `KeyError` in the
source; that situation is unreachable behind the validation gate, and is
modeled as an unequal comparison. -/
def jidEq (cur : Option Nat) (jid : Option Nat) : Bool :=
  match cur, jid with
  | Option.some a, Option.some b => a == b
  | Option.none, Option.some b => b == 0
  | _, Option.none => false

/-- The `same_move` list of booleans (source lines 786-792). -/
def same_move_list (cfg : SplitCfg) (isZero : Rat → Bool) (st : SplitState)
    (l : RLine) : List Bool :=
  match cfg.split_move_method with
  | .move_name => [pyEq st.cur_move_name l.move_name]
  | .balanced =>
    let base := [jidEq st.cur_journal_id l.journal_id, !(isZero st.cur_balance)]
    if !cfg.date_by_move_line then base ++ [pyEq st.cur_date l.date] else base

/-- Source lines 783-785: under the by-entry-number policy a missing
`move_name` appends to the `errors['other']` bucket — which the gate has
already consumed, so the append is dead. -/
def noteMissingName (cfg : SplitCfg) (l : RLine) (st : SplitState) : SplitState :=
  if cfg.split_move_method == SplitMethod.move_name && !truthy l.move_name
  then { st with late_errors := st.late_errors ++ [OtherErr.missingMoveName l.line] }
  else st

/-- One iteration of the EXTRACT MOVES loop (source lines 774-810):
optional null-line skip; the dead missing-`move_name` note; then either
append to the current move or close it (with the fewer-than-2-lines check)
and open a new one; finally accumulate the running balance. -/
def splitStep (cfg : SplitCfg) (isZero : Rat → Bool) (st : SplitState)
    (l : RLine) : Except ImpErr SplitState :=
  if cfg.skip_null_lines && isZero (numOf l.credit) && isZero (numOf l.debit) then
    .ok st
  else
    let st0 := noteMissingName cfg l st
    if (same_move_list cfg isZero st0 l).all id then
      match st0.cur_move with
      | Option.some m =>
        .ok { st0 with
          cur_move := Option.some
            { m with line_ids := m.line_ids ++ [_prepare_move_line l] },
          cur_balance := qsub (qadd st0.cur_balance (numOf l.credit)) (numOf l.debit) }
      | Option.none => .error .crash
    else
      match st0.cur_move with
      | Option.some m =>
        if m.line_ids.length ≤ 1 then .error (.splitOneLine l.line)
        else
          .ok { st0 with
            moves := st0.moves ++ [m],
            cur_move := Option.some
              { _prepare_move cfg l with line_ids := [_prepare_move_line l] },
            cur_date := l.date, cur_move_name := l.move_name,
            cur_journal_id := l.journal_id,
            cur_balance := qsub (qadd 0 (numOf l.credit)) (numOf l.debit) }
      | Option.none =>
        .ok { st0 with
          cur_move := Option.some
            { _prepare_move cfg l with line_ids := [_prepare_move_line l] },
          cur_date := l.date, cur_move_name := l.move_name,
          cur_journal_id := l.journal_id,
          cur_balance := qsub (qadd 0 (numOf l.credit)) (numOf l.debit) }

def splitRun (cfg : SplitCfg) (isZero : Rat → Bool) :
    SplitState → List RLine → Except ImpErr SplitState
  | st, [] => .ok st
  | st, l :: ls =>
    match splitStep cfg isZero st l with
    | .error e => .error e
    | .ok st1 => splitRun cfg isZero st1 ls

/-- Closing code after the loop (source lines 811-816): append the still
open move unconditionally, then fail if the trailing running balance is
not currency-zero. -/
def finishSplit (isZero : Rat → Bool) (st : SplitState) :
    Except ImpErr (List Move) :=
  let moves := match st.cur_move with
    | Option.some m => st.moves ++ [m]
    | Option.none => st.moves
  if !(isZero st.cur_balance) then .error (.unbalanced st.cur_balance)
  else .ok moves

/-- The Move Splitter on an already-validated, resolved line sequence. -/
def split_moves (cfg : SplitCfg) (isZero : Rat → Bool) (rls : List RLine) :
    Except ImpErr (List Move) :=
  match splitRun cfg isZero initSplitState rls with
  | .error e => .error e
  | .ok st => finishSplit isZero st

/-- `create_moves_from_pivot` (source lines 657-824): resolve every line,
collecting all failures; raise one aggregate validation error if the
rendered message is non-empty; then split the resolved lines into journal
entries.  `isZero` is the company currency's `is_zero` comparator.  The
`late_errors` recorded by the splitter are appended to the
already-consumed accumulator in the source and never read again; they are
discarded here likewise. -/
def create_moves_from_pivot (cfg : SplitCfg) (sd : SpeedDict)
    (isZero : Rat → Bool) (pn : String → Option Rat) (pd : String → Option Int)
    (pivot : List PivotLine) : Except ImpErr (List Move) :=
  match resolvePivot sd pn pd Errors.empty pivot with
  | .error e => .error e
  | .ok (rls, errs) =>
    if hasErrors errs then .error (.validation errs)
    else split_moves cfg isZero rls

/-- Net balance (credits minus debits) of one emitted journal entry. -/
def moveBal (m : Move) : Rat := qsum (m.line_ids.map (fun ml => qsub ml.credit ml.debit))

deriving instance DecidableEq for Except

/-! ### Concrete fixtures -/

/-- Exact-zero comparator: a currency `is_zero` instance. -/
def isZeroQ : Rat → Bool := fun q => q == 0

def pnNone : String → Option Rat := fun _ => Option.none

def pdNone : String → Option Int := fun _ => Option.none

def sdW : SpeedDict :=
  { partner := [], journal := [("VT", 9)], account := [("411000", 3)], analytic := [] }

def sdC1 : SpeedDict :=
  { partner := [], journal := [("A", 1), ("B", 2)], account := [("411000", 3)],
    analytic := [] }

/-- A well-formed pivot line with the given line number, journal code,
credit and debit, dated day 100, account `411000`. -/
def mkPL (ln : Int) (j : String) (cr dr : Rat) : PivotLine :=
  { line := .vint ln, date := .vdate 100, journal := .vstr j,
    account := .vstr "411000", partner := .none, analytic := .none,
    name := .pfalse, debit := .vnum dr, credit := .vnum cr, ref := .none,
    reconcile_ref := .none, move_name := .none }

def cfgBal : SplitCfg :=
  { skip_null_lines := false, split_move_method := .balanced,
    date_by_move_line := false, keep_odoo_move_name := true }

def cfgMN : SplitCfg :=
  { skip_null_lines := false, split_move_method := .move_name,
    date_by_move_line := false, keep_odoo_move_name := true }

/-- Resolved form of `mkPL 2 "VT" 100 0` against `sdW`. -/
def rlA : RLine :=
  { line := 2, date := .vdate 100, journal := .vstr "VT",
    account := .vstr "411000", partner := .none, analytic := .none,
    name := .pfalse, debit := .vnum 0, credit := .vnum 100, ref := .none,
    reconcile_ref := .none, move_name := .none, account_id := Option.some 3,
    partner_id := Option.none, journal_id := Option.some 9,
    analytic_distribution := Option.none }

/-- Resolved form of `mkPL 3 "VT" 0 100` against `sdW`. -/
def rlB : RLine := { rlA with line := 3, debit := .vnum 100, credit := .vnum 0 }

/-- A resolved zero-amount line. -/
def rlZ : RLine := { rlA with credit := .vnum 0 }

/-! ### Splitter invariants (C1) -/

theorem qsum_append (xs : List Rat) (x : Rat) :
    qsum (xs ++ [x]) = qadd (qsum xs) x := by
  unfold qsum
  rw [List.foldl_append]
  rfl

theorem qadd_qsub_assoc (a b c : Rat) : qsub (qadd a b) c = qadd a (qsub b c) := by
  rw [qsub_eq, qadd_eq, qadd_eq, qsub_eq]
  ring

/-- Invariant carried through the EXTRACT MOVES loop: every already-closed
move has at least two lines; the running balance equals the net balance of
the currently open move; and a move has been opened as soon as any move was
closed. -/
def SplitInv (st : SplitState) : Prop :=
  (∀ m ∈ st.moves, 2 ≤ m.line_ids.length)
  ∧ (match st.cur_move with
     | Option.some m => st.cur_balance = moveBal m
     | Option.none => st.cur_balance = 0)
  ∧ (st.cur_move = Option.none → st.moves = [])

theorem SplitInv_note (cfg : SplitCfg) (l : RLine) (st : SplitState) :
    SplitInv (noteMissingName cfg l st) ↔ SplitInv st := by
  unfold noteMissingName
  split
  · exact Iff.rfl
  · exact Iff.rfl

theorem splitStep_inv (cfg : SplitCfg) (isZero : Rat → Bool) (st st1 : SplitState)
    (l : RLine) (hInv : SplitInv st) (h : splitStep cfg isZero st l = .ok st1) :
    SplitInv st1 := by
  have hInv0 : SplitInv (noteMissingName cfg l st) :=
    (SplitInv_note cfg l st).mpr hInv
  unfold splitStep at h
  by_cases hskip :
      (cfg.skip_null_lines && isZero (numOf l.credit) && isZero (numOf l.debit)) = true
  · rw [if_pos hskip] at h
    injection h with h'
    exact h' ▸ hInv
  · rw [if_neg hskip] at h
    simp only [] at h
    generalize hg : noteMissingName cfg l st = st0 at h hInv0
    obtain ⟨g1, g2, g3⟩ := hInv0
    by_cases hsame : ((same_move_list cfg isZero st0 l).all id) = true
    · rw [if_pos hsame] at h
      cases hcur : st0.cur_move with
      | none => rw [hcur] at h; simp at h
      | some m =>
        rw [hcur] at h
        injection h with h'
        subst h'
        have hb : st0.cur_balance = moveBal m := by
          rw [hcur] at g2
          exact g2
        refine ⟨g1, ?_, ?_⟩
        · show qsub (qadd st0.cur_balance (numOf l.credit)) (numOf l.debit)
            = moveBal { m with line_ids := m.line_ids ++ [_prepare_move_line l] }
          rw [hb, qadd_qsub_assoc]
          unfold moveBal
          rw [List.map_append]
          simp only [List.map_cons, List.map_nil]
          rw [qsum_append]
          rfl
        · intro hc
          simp at hc
    · rw [if_neg hsame] at h
      cases hcur : st0.cur_move with
      | none =>
        rw [hcur] at h
        injection h with h'
        subst h'
        refine ⟨g1, ?_, ?_⟩
        · show qsub (qadd 0 (numOf l.credit)) (numOf l.debit)
            = moveBal { _prepare_move cfg l with line_ids := [_prepare_move_line l] }
          rw [qadd_qsub_assoc]
          rfl
        · intro hc
          simp at hc
      | some m =>
        rw [hcur] at h
        simp only [] at h
        by_cases hlen : m.line_ids.length ≤ 1
        · rw [if_pos hlen] at h
          simp at h
        · rw [if_neg hlen] at h
          injection h with h'
          subst h'
          refine ⟨?_, ?_, ?_⟩
          · intro x hx
            rcases List.mem_append.mp hx with hx1 | hx2
            · exact g1 x hx1
            · rw [List.mem_singleton.mp hx2]
              omega
          · show qsub (qadd 0 (numOf l.credit)) (numOf l.debit)
              = moveBal { _prepare_move cfg l with line_ids := [_prepare_move_line l] }
            rw [qadd_qsub_assoc]
            rfl
          · intro hc
            simp at hc

theorem splitRun_inv (cfg : SplitCfg) (isZero : Rat → Bool)
    (rls : List RLine) :
    ∀ st st1, SplitInv st → splitRun cfg isZero st rls = .ok st1 → SplitInv st1 := by
  induction rls with
  | nil =>
    intro st st1 hInv h
    unfold splitRun at h
    injection h with h'
    exact h' ▸ hInv
  | cons l ls ih =>
    intro st st1 hInv h
    unfold splitRun at h
    cases hstep : splitStep cfg isZero st l with
    | error e => rw [hstep] at h; simp at h
    | ok st2 =>
      rw [hstep] at h
      exact ih st2 st1 (splitStep_inv cfg isZero st st2 l hInv hstep) h

theorem initSplitState_inv : SplitInv initSplitState := by
  refine ⟨?_, ?_, ?_⟩
  · intro m hm
    simp [initSplitState] at hm
  · show (0 : Rat) = 0
    rfl
  · intro
    rfl

/-- C1 (amended): for every accepted pivot sequence and every split
policy, every emitted journal entry *except possibly the last* contains at
least 2 lines, and the *last* emitted entry is currency-zero balanced;
the last entry may hold a single line, and entries closed at a split
boundary are not balance-checked. -/
theorem emitted_moves_shape (cfg : SplitCfg) (sd : SpeedDict)
    (isZero : Rat → Bool) (pn : String → Option Rat) (pd : String → Option Int)
    (pivot : List PivotLine) (moves : List Move)
    (h : create_moves_from_pivot cfg sd isZero pn pd pivot = .ok moves) :
    (∀ m ∈ moves.dropLast, 2 ≤ m.line_ids.length)
    ∧ (∀ m, moves.getLast? = Option.some m → isZero (moveBal m) = true) := by
  unfold create_moves_from_pivot at h
  cases hres : resolvePivot sd pn pd Errors.empty pivot with
  | error e => rw [hres] at h; simp at h
  | ok pr =>
    rw [hres] at h
    by_cases hge : hasErrors pr.2 = true
    · simp [hge] at h
    · simp only [hge, Bool.false_eq_true, if_false] at h
      unfold split_moves at h
      cases hrun : splitRun cfg isZero initSplitState pr.1 with
      | error e => rw [hrun] at h; simp at h
      | ok st =>
        rw [hrun] at h
        simp only [] at h
        have hInv : SplitInv st :=
          splitRun_inv cfg isZero pr.1 initSplitState st initSplitState_inv hrun
        obtain ⟨i1, i2, i3⟩ := hInv
        unfold finishSplit at h
        by_cases hz : (!(isZero st.cur_balance)) = true
        · rw [if_pos hz] at h; simp at h
        · rw [if_neg hz] at h
          have hz2 : isZero st.cur_balance = true := by
            cases hx : isZero st.cur_balance
            · rw [hx] at hz; simp at hz
            · rfl
          injection h with h'
          cases hcur : st.cur_move with
          | some m =>
            rw [hcur] at h'
            subst h'
            constructor
            · rw [List.dropLast_concat]
              exact i1
            · intro x hx
              rw [List.getLast?_concat] at hx
              injection hx with hx'
              subst hx'
              rw [hcur] at i2
              rw [← i2]
              exact hz2
          | none =>
            rw [hcur] at h'
            subst h'
            rw [i3 hcur]
            exact ⟨by intro m hm; simp at hm, by intro m hm; simp at hm⟩

/-- Concrete instantiation of `emitted_moves_shape` on a two-line balanced
import: the single emitted entry is currency-zero balanced. -/
def c1wMove : Move :=
  { journal_id := Option.some 9, ref := .none, date := .vdate 100,
    name := Option.none,
    line_ids := [
      { credit := 100, debit := 0, name := .pfalse, partner_id := Option.none,
        account_id := Option.some 3, analytic_distribution := Option.none,
        import_reconcile := .none, import_external_line := 2 },
      { credit := 0, debit := 100, name := .pfalse, partner_id := Option.none,
        account_id := Option.some 3, analytic_distribution := Option.none,
        import_reconcile := .none, import_external_line := 3 }] }

theorem emitted_moves_shape_witness : isZeroQ (moveBal c1wMove) = true :=
  (emitted_moves_shape cfgBal sdW isZeroQ pnNone pdNone
      [mkPL 2 "VT" 100 0, mkPL 3 "VT" 0 100] [c1wMove] (by decide)).2
    c1wMove (by decide)

/-- C1 counterexample: an accepted balanced-policy run whose first emitted
entry is *not* balanced (net 5, not currency-zero) and whose final emitted
entry has only one line — refuting "every emitted entry has ≥2 lines and
zero balance". -/
theorem emitted_moves_shape_counterexample :
    (create_moves_from_pivot cfgBal sdC1 isZeroQ pnNone pdNone
        [mkPL 2 "A" 10 0, mkPL 3 "A" 0 5, mkPL 4 "B" 0 0]).map
      (fun ms => ms.map (fun m => (m.line_ids.length, moveBal m)))
      = Except.ok [(2, 5), (1, 0)]
    ∧ isZeroQ 5 = false :=
  ⟨by decide, by decide⟩

/-! ### Balanced-policy split condition (C2) -/

/-- C2 (amended): under the balanced policy the continuation condition is
the conjunction "journal equal AND running balance non-zero AND (date
ignored OR date equal)"; hence a new entry is started as soon as at least
ONE of these fails: the journal differs, or the running balance is
currency-zero, or (unless date-spans-lines) the date differs — not only
when all three change simultaneously. -/
theorem balanced_split_condition_characterization (cfg : SplitCfg)
    (isZero : Rat → Bool) (st : SplitState) (l : RLine)
    (hm : cfg.split_move_method = SplitMethod.balanced) :
    ((same_move_list cfg isZero st l).all id = false
      ↔ (jidEq st.cur_journal_id l.journal_id = false
         ∨ isZero st.cur_balance = true
         ∨ (cfg.date_by_move_line = false ∧ pyEq st.cur_date l.date = false))) := by
  unfold same_move_list
  rw [hm]
  cases hd : cfg.date_by_move_line with
  | false =>
    simp only [hd, Bool.not_false, if_true, List.cons_append, List.nil_append]
    generalize jidEq st.cur_journal_id l.journal_id = b1
    generalize isZero st.cur_balance = b2
    generalize pyEq st.cur_date l.date = b3
    revert b1 b2 b3
    decide
  | true =>
    simp only [hd, Bool.not_true, Bool.false_eq_true, if_false]
    generalize jidEq st.cur_journal_id l.journal_id = b1
    generalize isZero st.cur_balance = b2
    generalize pyEq st.cur_date l.date = b3
    revert b1 b2 b3
    decide

/-- Concrete instantiation of `balanced_split_condition_characterization`
at the initial splitter state. -/
theorem balanced_split_condition_witness :
    (same_move_list cfgBal isZeroQ initSplitState rlA).all id = false
      ↔ (jidEq initSplitState.cur_journal_id rlA.journal_id = false
         ∨ isZeroQ initSplitState.cur_balance = true
         ∨ (cfgBal.date_by_move_line = false
            ∧ pyEq initSplitState.cur_date rlA.date = false)) :=
  balanced_split_condition_characterization cfgBal isZeroQ initSplitState rlA rfl

/-- C2 counterexample: four lines sharing one journal and one date are
split into two entries (the running balance reaching zero alone forces the
split), refuting "a split happens only when journal differs AND balance is
zero AND date differs simultaneously". -/
theorem balanced_split_condition_counterexample :
    (create_moves_from_pivot cfgBal sdW isZeroQ pnNone pdNone
        [mkPL 2 "VT" 10 0, mkPL 3 "VT" 0 10, mkPL 4 "VT" 10 0, mkPL 5 "VT" 0 10]).map
      (fun ms => ms.length) = Except.ok 2
    ∧ ([mkPL 2 "VT" 10 0, mkPL 3 "VT" 0 10, mkPL 4 "VT" 10 0, mkPL 5 "VT" 0 10].all
        (fun l => pyEq l.journal (.vstr "VT") && pyEq l.date (.vdate 100))) = true :=
  ⟨by decide, by decide⟩

/-! ### Single-line sequences under the balanced policy (C5) -/

/-- C5 (amended): a validated single-line sequence under the balanced
policy never raises the fewer-than-2-lines split error: when the line's
net amount is not currency-zero the run fails with the *unbalanced-entry*
error, and when it is currency-zero the run *succeeds*, emitting one
single-line entry. -/
theorem single_line_split_behavior (cfg : SplitCfg) (isZero : Rat → Bool)
    (rl : RLine) (hm : cfg.split_move_method = SplitMethod.balanced)
    (hskip : cfg.skip_null_lines = false) (h0 : isZero 0 = true) :
    (∀ n, split_moves cfg isZero [rl] ≠ Except.error (ImpErr.splitOneLine n))
    ∧ (isZero (qsub (qadd 0 (numOf rl.credit)) (numOf rl.debit)) = false
        → split_moves cfg isZero [rl]
          = Except.error
              (ImpErr.unbalanced (qsub (qadd 0 (numOf rl.credit)) (numOf rl.debit))))
    ∧ (isZero (qsub (qadd 0 (numOf rl.credit)) (numOf rl.debit)) = true
        → (split_moves cfg isZero [rl]).map
            (fun ms => ms.map (fun m => m.line_ids.length)) = Except.ok [1]) := by
  have hrun : split_moves cfg isZero [rl]
      = (if (!(isZero (qsub (qadd 0 (numOf rl.credit)) (numOf rl.debit)))) = true
         then Except.error
            (ImpErr.unbalanced (qsub (qadd 0 (numOf rl.credit)) (numOf rl.debit)))
         else Except.ok
            [{ _prepare_move cfg rl with line_ids := [_prepare_move_line rl] }]) := by
    cases hd : cfg.date_by_move_line with
    | false =>
      simp [split_moves, splitRun, splitStep, noteMissingName, same_move_list,
        finishSplit, initSplitState, h0, hd, hm, hskip]
    | true =>
      simp [split_moves, splitRun, splitStep, noteMissingName, same_move_list,
        finishSplit, initSplitState, h0, hd, hm, hskip]
  refine ⟨?_, ?_, ?_⟩
  · intro n
    rw [hrun]
    by_cases hz : (!(isZero (qsub (qadd 0 (numOf rl.credit)) (numOf rl.debit)))) = true
    · rw [if_pos hz]
      simp
    · rw [if_neg hz]
      simp
  · intro hz
    rw [hrun, if_pos]
    rw [hz]
    rfl
  · intro hz
    rw [hrun, if_neg]
    · rfl
    · rw [hz]
      simp

/-- Concrete instantiation of `single_line_split_behavior`: a single line
with credit = debit = 0 *succeeds* with one single-line entry. -/
theorem single_line_split_witness :
    (split_moves cfgBal isZeroQ [rlZ]).map
      (fun ms => ms.map (fun m => m.line_ids.length)) = Except.ok [1] :=
  (single_line_split_behavior cfgBal isZeroQ rlZ rfl rfl (by decide)).2.2 (by decide)

/-- C5 counterexample: a validated single-line pivot under the balanced
policy raises the *unbalanced* error, not the fewer-than-2-lines
`SplitError` the claim expects. -/
theorem single_line_split_counterexample :
    create_moves_from_pivot cfgBal sdW isZeroQ pnNone pdNone [mkPL 2 "VT" 0 100]
      = Except.error (ImpErr.unbalanced (-100))
    ∧ (Except.error (ImpErr.unbalanced (-100)) : Except ImpErr (List Move))
        ≠ Except.error (ImpErr.splitOneLine 2) :=
  ⟨by decide, by decide⟩

/-! ### Missing move_name under the by-entry-number policy (C6) -/

/-- C6: under the by-entry-number policy, lines with no `move_name` do NOT
abort the splitting stage: the validation gate passes (no error recorded
before move creation), both missing-`move_name` messages are appended only
to the dead `errors['other']` bucket after the gate has already been
consumed, and the run still succeeds, emitting one two-line entry — the
lines are silently processed. -/
theorem move_name_missing_silently_processed :
    resolvePivot sdW pnNone pdNone Errors.empty
        [mkPL 2 "VT" 100 0, mkPL 3 "VT" 0 100] = Except.ok ([rlA, rlB], Errors.empty)
    ∧ (splitRun cfgMN isZeroQ initSplitState [rlA, rlB]).map
        (fun st => st.late_errors)
      = Except.ok [OtherErr.missingMoveName 2, OtherErr.missingMoveName 3]
    ∧ (create_moves_from_pivot cfgMN sdW isZeroQ pnNone pdNone
        [mkPL 2 "VT" 100 0, mkPL 3 "VT" 0 100]).map
        (fun ms => ms.map (fun m => m.line_ids.length))
      = Except.ok [2] :=
  ⟨by decide, by decide, by decide⟩

/-! ### Analytic distribution parsing claims (C8) -/

theorem mem_upsertQ_key (m : List (Nat × Rat)) (k : Nat) (v : Rat) :
    ∀ kv ∈ upsertQ m k v, kv.1 = k ∨ kv.1 ∈ m.map Prod.fst := by
  induction m with
  | nil =>
    intro kv hkv
    unfold upsertQ at hkv
    rw [List.mem_singleton.mp hkv]
    exact Or.inl rfl
  | cons hd tl ih =>
    intro kv hkv
    unfold upsertQ at hkv
    by_cases he : (hd.1 == k) = true
    · obtain ⟨k0, v0⟩ := hd
      rw [if_pos he] at hkv
      rcases List.mem_cons.mp hkv with h1 | h2
      · rw [h1]
        exact Or.inl (by simpa using he)
      · refine Or.inr ?_
        rw [List.map_cons]
        exact List.mem_cons_of_mem _ (List.mem_map_of_mem Prod.fst h2)
    · obtain ⟨k0, v0⟩ := hd
      rw [if_neg he] at hkv
      rcases List.mem_cons.mp hkv with h1 | h2
      · refine Or.inr ?_
        rw [h1, List.map_cons]
        exact List.mem_cons_self _ _
      · rcases ih kv h2 with h3 | h4
        · exact Or.inl h3
        · refine Or.inr ?_
          rw [List.map_cons]
          exact List.mem_cons_of_mem _ h4

theorem ana_fold_step_keys (pn : String → Option Rat) (d : List (String × Nat))
    (n : Int) (acc : List (Nat × Rat) × Errors) (seg : String)
    (h : ∀ kv ∈ acc.1, ∃ c, lookupStr d c = Option.some kv.1) :
    ∀ kv ∈ (ana_fold_step pn d n acc seg).1,
      ∃ c, lookupStr d c = Option.some kv.1 := by
  intro kv hkv
  unfold ana_fold_step at hkv
  cases hseg : ana_seg pn n seg with
  | none =>
    rw [hseg] at hkv
    exact h kv hkv
  | some r =>
    obtain ⟨code, pct, es⟩ := r
    rw [hseg] at hkv
    simp only [] at hkv
    cases hl : lookupStr d code with
    | none =>
      rw [hl] at hkv
      simp only [] at hkv
      exact h kv hkv
    | some i =>
      rw [hl] at hkv
      simp only [] at hkv
      rcases mem_upsertQ_key acc.1 i pct kv hkv with h1 | h2
      · exact ⟨code, by rw [hl, h1]⟩
      · obtain ⟨kv2, hm, he⟩ := List.mem_map.mp h2
        obtain ⟨c, hc⟩ := h kv2 hm
        exact ⟨c, by rw [hc, he]⟩

theorem ana_fold_keys (pn : String → Option Rat) (d : List (String × Nat))
    (n : Int) (segs : List String) :
    ∀ acc, (∀ kv ∈ acc.1, ∃ c, lookupStr d c = Option.some kv.1)
      → ∀ kv ∈ (segs.foldl (ana_fold_step pn d n) acc).1,
          ∃ c, lookupStr d c = Option.some kv.1 := by
  induction segs with
  | nil => intro acc h; exact h
  | cons seg rest ih =>
    intro acc h
    rw [List.foldl_cons]
    exact ih (ana_fold_step pn d n acc seg) (ana_fold_step_keys pn d n acc seg h)

/-- C8 (amended): for every analytic field, splitting is on `|`; a
non-empty segment without `:` is assigned percentage 100; a segment whose
trailing percentage does not parse as a number records an "other" error
(not a hard stop) and the percentage defaults to 1; a segment whose
percentage parses *outside [0,100]* records an "other" error but the
parsed out-of-range value is RETAINED in the distribution (it is not
defaulted to 1); and the resulting distribution only contains sub-codes
that resolved against the analytic directory. -/
theorem analytic_parsing_characterization (pn : String → Option Rat)
    (d : List (String × Nat)) (n : Int) :
    (∀ s st kv, kv ∈ (resolveAnalytic pn d n s st).1
        → ∃ c, lookupStr d c = Option.some kv.1)
    ∧ (∀ seg c, ¬(pstrip seg == "") = true → pysplit ':' (pstrip seg) = [c]
        → ana_seg pn n seg = Option.some (pstrip c, 100, []))
    ∧ (∀ seg c p2 ps, ¬(pstrip seg == "") = true
        → pysplit ':' (pstrip seg) = c :: p2 :: ps
        → pn (replaceChar ',' '.' ((c :: p2 :: ps).getLastD "")) = Option.none
        → ana_seg pn n seg
          = Option.some (pstrip (String.intercalate ":" (c :: p2 :: ps).dropLast), 1,
              [OtherErr.wrongAnaPctNumber n ((c :: p2 :: ps).getLastD "")]))
    ∧ (∀ seg c p2 ps p, ¬(pstrip seg == "") = true
        → pysplit ':' (pstrip seg) = c :: p2 :: ps
        → pn (replaceChar ',' '.' ((c :: p2 :: ps).getLastD "")) = Option.some p
        → (p < 0 ∨ p > 100)
        → ana_seg pn n seg
          = Option.some (pstrip (String.intercalate ":" (c :: p2 :: ps).dropLast), p,
              [OtherErr.wrongAnaPctRange n ((c :: p2 :: ps).getLastD "")])) := by
  refine ⟨?_, ?_, ?_, ?_⟩
  · intro s st kv hkv
    exact ana_fold_keys pn d n (pysplit '|' s) ([], st) (by intro kv2 h2; simp at h2) kv hkv
  · intro seg c hne hsp
    unfold ana_seg
    rw [if_neg hne, hsp]
  · intro seg c p2 ps hne hsp hpn
    unfold ana_seg
    rw [if_neg hne, hsp]
    simp only [hpn]
  · intro seg c p2 ps p hne hsp hpn hrange
    unfold ana_seg
    rw [if_neg hne, hsp]
    simp only [hpn]
    rw [if_pos hrange]

def pnW : String → Option Rat := fun s => if s == "150" then Option.some 150 else Option.none

/-- Concrete instantiations of `analytic_parsing_characterization`: a plain
segment gets 100%, a non-numeric percentage defaults to 1 with an error,
and an out-of-range percentage is kept as parsed with an error. -/
theorem analytic_parsing_witness :
    ana_seg pnW 2 "ADM" = Option.some ("ADM", 100, [])
    ∧ ana_seg pnW 2 "ADM:xx" = Option.some ("ADM", 1, [OtherErr.wrongAnaPctNumber 2 "xx"])
    ∧ ana_seg pnW 2 "ADM:150"
      = Option.some ("ADM", 150, [OtherErr.wrongAnaPctRange 2 "150"]) :=
  ⟨((analytic_parsing_characterization pnW [("ADM", 7)] 2).2.1 "ADM" "ADM"
      (by decide) (by decide)).trans (by decide),
   ((analytic_parsing_characterization pnW [("ADM", 7)] 2).2.2.1 "ADM:xx" "ADM" "xx" []
      (by decide) (by decide) (by decide)).trans (by decide),
   ((analytic_parsing_characterization pnW [("ADM", 7)] 2).2.2.2 "ADM:150" "ADM" "150" [] 150
      (by decide) (by decide) (by decide) (by norm_num)).trans (by decide)⟩

/-- C8 counterexample: for analytic field `ADM:150` the distribution maps
the resolved sub-code to the out-of-range value 150, not to the claimed
default 1 (the error is still recorded in the "other" bucket). -/
theorem analytic_pct_default_counterexample :
    (resolveAnalytic pnW [("ADM", 7)] 2 "ADM:150" Errors.empty).1 = [(7, 150)]
    ∧ (resolveAnalytic pnW [("ADM", 7)] 2 "ADM:150" Errors.empty).1 ≠ [(7, 1)]
    ∧ (resolveAnalytic pnW [("ADM", 7)] 2 "ADM:150" Errors.empty).2.other
      = [OtherErr.wrongAnaPctRange 2 "150"] :=
  ⟨by decide, by decide, by decide⟩

/-! ### The validation gate (C4) -/

/-- Bucket-wise non-emptiness preservation between two error states: the
resolution loop only ever adds to the buckets. -/
def errsLe (a b : Errors) : Prop :=
  (a.journal ≠ [] → b.journal ≠ []) ∧ (a.account ≠ [] → b.account ≠ [])
  ∧ (a.partner ≠ [] → b.partner ≠ []) ∧ (a.analytic ≠ [] → b.analytic ≠ [])
  ∧ (a.other ≠ [] → b.other ≠ [])

theorem errsLe_refl (a : Errors) : errsLe a a := ⟨id, id, id, id, id⟩

theorem errsLe_trans {a b c : Errors} (h1 : errsLe a b) (h2 : errsLe b c) :
    errsLe a c :=
  ⟨fun h => h2.1 (h1.1 h), fun h => h2.2.1 (h1.2.1 h),
   fun h => h2.2.2.1 (h1.2.2.1 h), fun h => h2.2.2.2.1 (h1.2.2.2.1 h),
   fun h => h2.2.2.2.2 (h1.2.2.2.2 h)⟩

theorem upsertLines_ne_nil (m : List (PValue × List Int)) (k : PValue) (n : Int) :
    upsertLines m k n ≠ [] := by
  cases m with
  | nil => simp [upsertLines]
  | cons hd tl =>
    obtain ⟨k0, ls⟩ := hd
    unfold upsertLines
    by_cases he : pyEq k0 k = true
    · simp [he]
    · simp [he]

theorem errsLe_app_other (st : Errors) (es : List OtherErr) :
    errsLe st { st with other := st.other ++ es } :=
  ⟨id, id, id, id, fun h hc => h (List.append_eq_nil.mp hc).1⟩

theorem hasErrors_iff (e : Errors) :
    hasErrors e = true ↔ (e.journal ≠ [] ∨ e.account ≠ [] ∨ e.partner ≠ []
      ∨ e.analytic ≠ [] ∨ e.other ≠ []) := by
  unfold hasErrors
  simp [List.isEmpty_iff]
  tauto

theorem hasErrors_mono {a b : Errors} (hle : errsLe a b) (h : hasErrors a = true) :
    hasErrors b = true := by
  rw [hasErrors_iff] at h ⊢
  rcases h with h | h | h | h | h
  · exact Or.inl (hle.1 h)
  · exact Or.inr (Or.inl (hle.2.1 h))
  · exact Or.inr (Or.inr (Or.inl (hle.2.2.1 h)))
  · exact Or.inr (Or.inr (Or.inr (Or.inl (hle.2.2.2.1 h))))
  · exact Or.inr (Or.inr (Or.inr (Or.inr (hle.2.2.2.2 h))))

theorem account_step_mono (sd : SpeedDict) (n : Int) (a : PValue) (st : Errors)
    (r : Option Nat × Errors) (h : account_step sd n a st = Except.ok r) :
    errsLe st r.2 := by
  unfold account_step at h
  split at h
  · split at h
    all_goals first
      | (injection h with h'; subst h'; exact errsLe_refl st)
      | (injection h with h'; subst h';
         exact ⟨id, fun _ => upsertLines_ne_nil _ _ _, id, id, id⟩)
  · exact absurd h (by simp)
  · split at h
    · injection h with h'
      subst h'
      exact ⟨id, fun _ => upsertLines_ne_nil _ _ _, id, id, id⟩
    · exact absurd h (by simp)

theorem account_step_fail (sd : SpeedDict) (n : Int) (s : String) (st : Errors)
    (r : Option Nat × Errors) (h : account_step sd n (PValue.vstr s) st = Except.ok r)
    (hu : resolve_account sd.account s = AccMatch.unresolved) :
    hasErrors r.2 = true := by
  unfold account_step at h
  simp only [] at h
  rw [hu] at h
  injection h with h'
  subst h'
  rw [hasErrors_iff]
  exact Or.inr (Or.inl (upsertLines_ne_nil _ _ _))

theorem partner_step_mono (sd : SpeedDict) (n : Int) (p : PValue) (st : Errors) :
    errsLe st (partner_step sd n p st).2 := by
  unfold partner_step
  split
  · split
    · exact errsLe_refl st
    · exact ⟨id, id, fun _ => upsertLines_ne_nil _ _ _, id, id⟩
  · exact errsLe_refl st

theorem partner_step_fail (sd : SpeedDict) (n : Int) (p : PValue) (st : Errors)
    (ht : truthy p = true) (hu : lookupP sd.partner p = Option.none) :
    hasErrors (partner_step sd n p st).2 = true := by
  unfold partner_step
  rw [if_pos ht, hu]
  rw [hasErrors_iff]
  exact Or.inr (Or.inr (Or.inl (upsertLines_ne_nil _ _ _)))

theorem journal_step_mono (sd : SpeedDict) (n : Int) (j : PValue) (st : Errors)
    (r : Option Nat × Errors) (h : journal_step sd n j st = Except.ok r) :
    errsLe st r.2 := by
  unfold journal_step at h
  split at h
  · exact absurd h (by simp)
  · split at h
    · injection h with h'
      subst h'
      exact errsLe_refl st
    · injection h with h'
      subst h'
      exact ⟨fun _ => upsertLines_ne_nil _ _ _, id, id, id, id⟩

theorem journal_step_fail (sd : SpeedDict) (n : Int) (j : PValue) (st : Errors)
    (r : Option Nat × Errors) (h : journal_step sd n j st = Except.ok r)
    (hu : lookupP sd.journal j = Option.none) :
    hasErrors r.2 = true := by
  unfold journal_step at h
  split at h
  · exact absurd h (by simp)
  · rename_i v hne
    rw [hu] at h
    injection h with h'
    subst h'
    rw [hasErrors_iff]
    exact Or.inl (upsertLines_ne_nil _ _ _)

theorem date_step_mono (pd : String → Option Int) (n : Int) (dv : PValue)
    (st : Errors) : errsLe st (date_step pd n dv st).2 := by
  unfold date_step
  split
  · exact errsLe_app_other st _
  · split
    · exact errsLe_refl st
    · split
      · exact errsLe_refl st
      · exact errsLe_app_other st _
    · exact errsLe_app_other st _

theorem date_step_fail (pd : String → Option Int) (n : Int) (dv : PValue)
    (st : Errors)
    (hf : truthy dv = false
      ∨ (∃ s, dv = PValue.vstr s ∧ pd s = Option.none)
      ∨ (truthy dv = true ∧ (∀ s, dv ≠ PValue.vstr s) ∧ ∀ d2, dv ≠ PValue.vdate d2)) :
    hasErrors (date_step pd n dv st).2 = true := by
  have hne : ({ st with other := st.other ++ [OtherErr.missingDate n] } : Errors).other ≠ []
      := by simp
  unfold date_step
  rcases hf with hf | ⟨s, hs, hp⟩ | ⟨ht, hns, hnd⟩
  · rw [if_pos (by rw [hf]; rfl)]
    rw [hasErrors_iff]
    exact Or.inr (Or.inr (Or.inr (Or.inr (by simp))))
  · subst hs
    split
    · rw [hasErrors_iff]
      exact Or.inr (Or.inr (Or.inr (Or.inr (by simp))))
    · simp only []
      rw [hp]
      rw [hasErrors_iff]
      exact Or.inr (Or.inr (Or.inr (Or.inr (by simp))))
  · rw [if_neg (by rw [ht]; simp)]
    cases dv with
    | vstr s => exact absurd rfl (hns s)
    | vdate d2 => exact absurd rfl (hnd d2)
    | none => rw [hasErrors_iff]; exact Or.inr (Or.inr (Or.inr (Or.inr (by simp))))
    | pfalse => rw [hasErrors_iff]; exact Or.inr (Or.inr (Or.inr (Or.inr (by simp))))
    | vint m => rw [hasErrors_iff]; exact Or.inr (Or.inr (Or.inr (Or.inr (by simp))))
    | vnum q => rw [hasErrors_iff]; exact Or.inr (Or.inr (Or.inr (Or.inr (by simp))))

theorem credit_step_mono (n : Int) (v : PValue) (st : Errors) (r : Errors)
    (h : credit_step n v st = Except.ok r) : errsLe st r := by
  unfold credit_step at h
  split at h
  · injection h with h'
    subst h'
    exact errsLe_refl st
  · split at h
    · exact absurd h (by simp)
    · injection h with h'
      subst h'
      exact errsLe_app_other st _

theorem credit_step_fail (n : Int) (v : PValue) (st : Errors) (r : Errors)
    (h : credit_step n v st = Except.ok r) (hnv : isNumVal v = false) :
    hasErrors r = true := by
  unfold credit_step at h
  rw [if_neg (by rw [hnv]; simp)] at h
  split at h
  · exact absurd h (by simp)
  · injection h with h'
    subst h'
    rw [hasErrors_iff]
    exact Or.inr (Or.inr (Or.inr (Or.inr (by simp))))

theorem debit_step_mono (n : Int) (v : PValue) (st : Errors) (r : Errors)
    (h : debit_step n v st = Except.ok r) : errsLe st r := by
  unfold debit_step at h
  split at h
  · injection h with h'
    subst h'
    exact errsLe_refl st
  · split at h
    · exact absurd h (by simp)
    · injection h with h'
      subst h'
      exact errsLe_app_other st _

theorem debit_step_fail (n : Int) (v : PValue) (st : Errors) (r : Errors)
    (h : debit_step n v st = Except.ok r) (hnv : isNumVal v = false) :
    hasErrors r = true := by
  unfold debit_step at h
  rw [if_neg (by rw [hnv]; simp)] at h
  split at h
  · exact absurd h (by simp)
  · injection h with h'
    subst h'
    rw [hasErrors_iff]
    exact Or.inr (Or.inr (Or.inr (Or.inr (by simp))))

theorem ana_fold_step_mono (pn : String → Option Rat) (d : List (String × Nat))
    (n : Int) (acc : List (Nat × Rat) × Errors) (seg : String) :
    errsLe acc.2 (ana_fold_step pn d n acc seg).2 := by
  unfold ana_fold_step
  cases hseg : ana_seg pn n seg with
  | none => exact errsLe_refl _
  | some r =>
    obtain ⟨code, pct, es⟩ := r
    simp only []
    cases hl : lookupStr d code with
    | some i => exact errsLe_app_other _ _
    | none =>
      exact errsLe_trans (errsLe_app_other acc.2 es)
        ⟨id, id, id, fun _ => upsertLines_ne_nil _ _ _, id⟩

theorem ana_fold_mono (pn : String → Option Rat) (d : List (String × Nat))
    (n : Int) (segs : List String) :
    ∀ acc, errsLe acc.2 ((segs.foldl (ana_fold_step pn d n) acc)).2 := by
  induction segs with
  | nil => intro acc; exact errsLe_refl _
  | cons seg rest ih =>
    intro acc
    rw [List.foldl_cons]
    exact errsLe_trans (ana_fold_step_mono pn d n acc seg)
      (ih (ana_fold_step pn d n acc seg))

theorem ana_fold_step_fail (pn : String → Option Rat) (d : List (String × Nat))
    (n : Int) (acc : List (Nat × Rat) × Errors) (seg : String)
    (code : String) (pct : Rat) (es : List OtherErr)
    (hseg : ana_seg pn n seg = Option.some (code, pct, es))
    (hbad : es ≠ [] ∨ lookupStr d code = Option.none) :
    hasErrors (ana_fold_step pn d n acc seg).2 = true := by
  unfold ana_fold_step
  rw [hseg]
  simp only []
  cases hl : lookupStr d code with
  | some i =>
    rcases hbad with hes | hco
    · rw [hasErrors_iff]
      refine Or.inr (Or.inr (Or.inr (Or.inr ?_)))
      simp only []
      intro hc
      exact hes (List.append_eq_nil.mp hc).2
    · exact absurd hl (by rw [hco]; simp)
  | none =>
    rw [hasErrors_iff]
    exact Or.inr (Or.inr (Or.inr (Or.inl (upsertLines_ne_nil _ _ _))))

theorem ana_fold_fail (pn : String → Option Rat) (d : List (String × Nat))
    (n : Int) (segs : List String) :
    ∀ acc seg, seg ∈ segs
      → (∃ code pct es, ana_seg pn n seg = Option.some (code, pct, es)
          ∧ (es ≠ [] ∨ lookupStr d code = Option.none))
      → hasErrors ((segs.foldl (ana_fold_step pn d n) acc)).2 = true := by
  induction segs with
  | nil => intro acc seg hmem; simp at hmem
  | cons s rest ih =>
    intro acc seg hmem hbad
    rw [List.foldl_cons]
    rcases List.mem_cons.mp hmem with h1 | h2
    · subst h1
      obtain ⟨code, pct, es, hseg, hb⟩ := hbad
      exact hasErrors_mono (ana_fold_mono pn d n rest _)
        (ana_fold_step_fail pn d n acc seg code pct es hseg hb)
    · exact ih (ana_fold_step pn d n acc s) seg h2 hbad

theorem ana_step_mono (pn : String → Option Rat) (sd : SpeedDict) (n : Int)
    (a : PValue) (st : Errors) (r : Option (List (Nat × Rat)) × Errors)
    (h : ana_step pn sd n a st = Except.ok r) : errsLe st r.2 := by
  unfold ana_step at h
  split at h
  · split at h
    · injection h with h'
      subst h'
      exact ana_fold_mono pn sd.analytic n _ ([], st)
    · exact absurd h (by simp)
  · injection h with h'
    subst h'
    exact errsLe_refl st

theorem ana_step_fail (pn : String → Option Rat) (sd : SpeedDict) (n : Int)
    (s : String) (st : Errors) (r : Option (List (Nat × Rat)) × Errors)
    (h : ana_step pn sd n (PValue.vstr s) st = Except.ok r)
    (hseg : ∃ seg ∈ pysplit '|' s, ∃ code pct es,
      ana_seg pn n seg = Option.some (code, pct, es)
      ∧ (es ≠ [] ∨ lookupStr sd.analytic code = Option.none)) :
    hasErrors r.2 = true := by
  unfold ana_step at h
  split at h
  · simp only [] at h
    injection h with h'
    subst h'
    obtain ⟨seg, hmem, hbad⟩ := hseg
    exact ana_fold_fail pn sd.analytic n (pysplit '|' s) ([], st) seg hmem hbad
  · injection h with h'
    subst h'
    rename_i hfalse
    exfalso
    have hs : s = "" := by
      by_cases hc : s = ""
      · exact hc
      · exact absurd (by simp [truthy, hc]) hfalse
    subst hs
    obtain ⟨seg, hmem, code, pct, es, hsg, hb⟩ := hseg
    have hseg0 : seg = "" := by
      have hps : pysplit '|' "" = [""] := by decide
      rw [hps] at hmem
      simpa using hmem
    subst hseg0
    have hnone : ana_seg pn n "" = Option.none := rfl
    rw [hnone] at hsg
    simp at hsg

/-- One line fails resolution: some code cannot be resolved or a scalar is
malformed, in exactly the situations in which the MATCHES + CHECKS loop
records an error for the line. -/
def lineFails (sd : SpeedDict) (pn : String → Option Rat) (pd : String → Option Int)
    (l : PivotLine) : Prop :=
  (∃ s, l.account = PValue.vstr s ∧ resolve_account sd.account s = AccMatch.unresolved)
  ∨ (truthy l.partner = true ∧ lookupP sd.partner l.partner = Option.none)
  ∨ (∃ s, l.analytic = PValue.vstr s ∧ ∃ n2, l.line = PValue.vint n2
      ∧ ∃ seg ∈ pysplit '|' s, ∃ code pct es,
          ana_seg pn n2 seg = Option.some (code, pct, es)
          ∧ (es ≠ [] ∨ lookupStr sd.analytic code = Option.none))
  ∨ (lookupP sd.journal l.journal = Option.none)
  ∨ (truthy l.date = false)
  ∨ (∃ s, l.date = PValue.vstr s ∧ pd s = Option.none)
  ∨ (truthy l.date = true ∧ (∀ s, l.date ≠ PValue.vstr s) ∧ ∀ d2, l.date ≠ PValue.vdate d2)
  ∨ (isNumVal l.credit = false)
  ∨ (isNumVal l.debit = false)

theorem resolveLine_mono_fail (sd : SpeedDict) (pn : String → Option Rat)
    (pd : String → Option Int) (st : Errors) (l : PivotLine) (rl : RLine)
    (st2 : Errors) (h : resolveLine sd pn pd st l = Except.ok (rl, st2)) :
    errsLe st st2 ∧ (lineFails sd pn pd l → hasErrors st2 = true) := by
  unfold resolveLine at h
  cases hln : l.line with
  | vint n =>
    rw [hln] at h
    simp only [] at h
    by_cases hz : (n == 0) = true
    · rw [if_pos hz] at h
      exact absurd h (by simp)
    · rw [if_neg hz] at h
      cases hacc : account_step sd n l.account st with
      | error e => rw [hacc] at h; exact absurd h (by simp)
      | ok r1 =>
        obtain ⟨accId, st1⟩ := r1
        rw [hacc] at h
        simp only [] at h
        cases hana : ana_step pn sd n l.analytic (partner_step sd n l.partner st1).2 with
        | error e => rw [hana] at h; exact absurd h (by simp)
        | ok r3 =>
          obtain ⟨dist, st3⟩ := r3
          rw [hana] at h
          simp only [] at h
          cases hjou : journal_step sd n l.journal st3 with
          | error e => rw [hjou] at h; exact absurd h (by simp)
          | ok r4 =>
            obtain ⟨jId, st4⟩ := r4
            rw [hjou] at h
            simp only [] at h
            cases hcred : credit_step n l.credit (date_step pd n l.date st4).2 with
            | error e => rw [hcred] at h; exact absurd h (by simp)
            | ok st6 =>
              rw [hcred] at h
              simp only [] at h
              cases hdeb : debit_step n l.debit st6 with
              | error e => rw [hdeb] at h; exact absurd h (by simp)
              | ok st7 =>
                rw [hdeb] at h
                simp only [] at h
                injection h with h'
                rw [Prod.mk.injEq] at h'
                obtain ⟨hrl, hst⟩ := h'
                subst hst
                have m1 : errsLe st st1 := account_step_mono sd n l.account st _ hacc
                have m2 : errsLe st1 (partner_step sd n l.partner st1).2 :=
                  partner_step_mono sd n l.partner st1
                have m3 : errsLe (partner_step sd n l.partner st1).2 st3 :=
                  ana_step_mono pn sd n l.analytic _ _ hana
                have m4 : errsLe st3 st4 := journal_step_mono sd n l.journal st3 _ hjou
                have m5 : errsLe st4 (date_step pd n l.date st4).2 :=
                  date_step_mono pd n l.date st4
                have m6 : errsLe (date_step pd n l.date st4).2 st6 :=
                  credit_step_mono n l.credit _ _ hcred
                have m7 : errsLe st6 st7 := debit_step_mono n l.debit st6 _ hdeb
                have m34567 : errsLe st3 st7 :=
                  errsLe_trans m4 (errsLe_trans m5 (errsLe_trans m6 m7))
                have m234567 : errsLe st1 st7 := errsLe_trans m2 (errsLe_trans m3 m34567)
                have m4567 : errsLe st4 st7 := errsLe_trans m5 (errsLe_trans m6 m7)
                refine ⟨errsLe_trans m1 m234567, ?_⟩
                intro hf
                rcases hf with ⟨s, hs, hu⟩ | ⟨ht, hu⟩ | ⟨s, hs, n2, hn2, hseg⟩
                  | hu | hd | ⟨s, hs, hp⟩ | hnsd | hc | hd2
                · rw [hs] at hacc
                  exact hasErrors_mono m234567
                    (account_step_fail sd n s st _ hacc hu)
                · exact hasErrors_mono (errsLe_trans m3 m34567)
                    (partner_step_fail sd n l.partner st1 ht hu)
                · rw [hs] at hana
                  rw [hln] at hn2
                  injection hn2 with hn2'
                  subst hn2'
                  exact hasErrors_mono m34567
                    (ana_step_fail pn sd n s _ _ hana hseg)
                · exact hasErrors_mono m4567
                    (journal_step_fail sd n l.journal st3 _ hjou hu)
                · exact hasErrors_mono (errsLe_trans m6 m7)
                    (date_step_fail pd n l.date st4 (Or.inl hd))
                · exact hasErrors_mono (errsLe_trans m6 m7)
                    (date_step_fail pd n l.date st4 (Or.inr (Or.inl ⟨s, hs, hp⟩)))
                · exact hasErrors_mono (errsLe_trans m6 m7)
                    (date_step_fail pd n l.date st4 (Or.inr (Or.inr hnsd)))
                · exact hasErrors_mono m7
                    (credit_step_fail n l.credit _ _ hcred hc)
                · exact debit_step_fail n l.debit st6 _ hdeb hd2
  | none => rw [hln] at h; exact absurd h (by simp)
  | pfalse => rw [hln] at h; exact absurd h (by simp)
  | vstr s => rw [hln] at h; exact absurd h (by simp)
  | vnum q => rw [hln] at h; exact absurd h (by simp)
  | vdate d => rw [hln] at h; exact absurd h (by simp)

theorem resolvePivot_mono_fail (sd : SpeedDict) (pn : String → Option Rat)
    (pd : String → Option Int) (pivot : List PivotLine) :
    ∀ st rls errs, resolvePivot sd pn pd st pivot = Except.ok (rls, errs)
      → errsLe st errs
        ∧ ((∃ l ∈ pivot, lineFails sd pn pd l) → hasErrors errs = true) := by
  induction pivot with
  | nil =>
    intro st rls errs h
    unfold resolvePivot at h
    injection h with h'
    rw [Prod.mk.injEq] at h'
    obtain ⟨h1, h2⟩ := h'
    rw [← h2]
    exact ⟨errsLe_refl st, by intro hc; obtain ⟨l, hl, _⟩ := hc; simp at hl⟩
  | cons l ls ih =>
    intro st rls errs h
    unfold resolvePivot at h
    cases hline : resolveLine sd pn pd st l with
    | error e => rw [hline] at h; exact absurd h (by simp)
    | ok r1 =>
      obtain ⟨rl, st1⟩ := r1
      rw [hline] at h
      simp only [] at h
      cases hrest : resolvePivot sd pn pd st1 ls with
      | error e => rw [hrest] at h; exact absurd h (by simp)
      | ok r2 =>
        obtain ⟨rls2, errs2⟩ := r2
        rw [hrest] at h
        simp only [] at h
        injection h with h'
        rw [Prod.mk.injEq] at h'
        obtain ⟨h1, h2⟩ := h'
        rw [← h2]
        obtain ⟨hm1, hfail1⟩ := resolveLine_mono_fail sd pn pd st l rl st1 hline
        obtain ⟨hm2, hfail2⟩ := ih st1 rls2 errs2 hrest
        refine ⟨errsLe_trans hm1 hm2, ?_⟩
        intro hex
        obtain ⟨l2, hmem, hf⟩ := hex
        rcases List.mem_cons.mp hmem with heq | hmem2
        · subst heq
          exact hasErrors_mono hm2 (hfail1 hf)
        · exact hfail2 ⟨l2, hmem2, hf⟩

/-- C4: the Directory Resolver collects all resolution failures across the
whole pivot sequence before failing: if at least one line fails to resolve,
`create_moves_from_pivot` never returns a list of created moves, and
whenever the resolution pass completes it raises the single aggregate
validation error carrying the accumulated error buckets, before any move
is built. -/
theorem validation_gate_aborts (cfg : SplitCfg) (sd : SpeedDict)
    (isZero : Rat → Bool) (pn : String → Option Rat) (pd : String → Option Int)
    (pivot : List PivotLine) (l : PivotLine) (hmem : l ∈ pivot)
    (hf : lineFails sd pn pd l) :
    (∀ ms, create_moves_from_pivot cfg sd isZero pn pd pivot ≠ Except.ok ms)
    ∧ (∀ rls errs, resolvePivot sd pn pd Errors.empty pivot = Except.ok (rls, errs)
        → create_moves_from_pivot cfg sd isZero pn pd pivot
          = Except.error (ImpErr.validation errs)) := by
  constructor
  · intro ms hok
    unfold create_moves_from_pivot at hok
    cases hres : resolvePivot sd pn pd Errors.empty pivot with
    | error e => rw [hres] at hok; simp at hok
    | ok pr =>
      obtain ⟨rls, errs⟩ := pr
      rw [hres] at hok
      have hhe : hasErrors errs = true :=
        (resolvePivot_mono_fail sd pn pd pivot Errors.empty rls errs hres).2
          ⟨l, hmem, hf⟩
      simp only [hhe, if_true] at hok
      exact absurd hok (by simp)
  · intro rls errs hres
    unfold create_moves_from_pivot
    rw [hres]
    have hhe : hasErrors errs = true :=
      (resolvePivot_mono_fail sd pn pd pivot Errors.empty rls errs hres).2
        ⟨l, hmem, hf⟩
    simp only [hhe, if_true]

/-- The error state accumulated for a one-line pivot whose journal code
`XX` is not in `sdW`. -/
def c4wErrs : Errors :=
  { journal := [(.vstr "XX", [2])], account := [], partner := [], analytic := [],
    other := [] }

/-- Resolved form of `mkPL 2 "XX" 100 0` against `sdW` (journal unresolved). -/
def c4wRl : RLine :=
  { rlA with journal := .vstr "XX", journal_id := Option.none }

/-- Concrete instantiation of `validation_gate_aborts`: an unknown journal
code aborts the one-line import with the aggregate validation error. -/
theorem validation_gate_witness :
    create_moves_from_pivot cfgBal sdW isZeroQ pnNone pdNone [mkPL 2 "XX" 100 0]
      = Except.error (ImpErr.validation c4wErrs) :=
  (validation_gate_aborts cfgBal sdW isZeroQ pnNone pdNone [mkPL 2 "XX" 100 0]
      (mkPL 2 "XX" 100 0) (by decide)
      (Or.inr (Or.inr (Or.inr (Or.inl (by decide)))))).2
    [c4wRl] c4wErrs (by decide)

/-! ### The Reconciler (reconcile_move_lines, source lines 849-900) -/

/-- A persisted move line as seen by the reconciler: `partner_key` models
`line.partner_id.id or False`; `import_reconcile` is the reconcile tag,
`none` when unset (the search domain filters those out). -/
structure RecLine where
  credit : Rat
  debit : Rat
  account_id : Nat
  partner_key : Option Nat
  import_reconcile : Option String
  deriving DecidableEq, Repr

def upsertGroup (m : List (String × List RecLine)) (r : String) (line : RecLine) :
    List (String × List RecLine) :=
  match m with
  | [] => [(r, [line])]
  | (r0, ls) :: rest =>
    if r0 == r then (r0, ls ++ [line]) :: rest
    else (r0, ls) :: upsertGroup rest r line

/-- The `torec` dict (source lines 856-861): group the tagged lines by
reconcile mark, in insertion order. -/
def groupByRef (lines : List RecLine) : List (String × List RecLine) :=
  lines.foldl
    (fun acc line =>
      match line.import_reconcile with
      | Option.none => acc
      | Option.some r => upsertGroup acc r line) []

/-- `total += line.credit; total -= line.debit` over the group. -/
def group_total (g : List RecLine) : Rat :=
  g.foldl (fun acc l => qsub (qadd acc l.credit) l.debit) 0

def dlStep {α : Type} [BEq α] (acc : List α) (x : α) : List α :=
  if acc.contains x then acc else acc ++ [x]

/-- Distinct values in first-occurrence order — the keys of the `accounts`
and `partners` dicts built by the group loop. -/
def distinctList {α : Type} [BEq α] (l : List α) : List α := l.foldl dlStep []

def distinct_accounts (g : List RecLine) : List Nat :=
  distinctList (g.map (fun l => l.account_id))

def distinct_partners (g : List RecLine) : List (Option Nat) :=
  distinctList (g.map (fun l => l.partner_key))

/-- Outcome of the per-group guard chain of the reconcile loop (source
lines 862-898): `skip` — a guard fails, its warning logs and the loop
continues; `link` — every guard passes and `reconcile()` is called;
`crash` — the more-than-one-partner guard fires, but the warning's
argument is computed eagerly and joins the partner dict keys, which are
ints or `False` (`line.partner_id.id or False`, line 875), so the join
raises `TypeError` and the whole loop aborts. -/
inductive RecOutcome
  | skip
  | link
  | crash
  deriving DecidableEq, Repr

/-- The guard chain of the reconcile loop (source lines 862-898), in
source order: fewer than 2 lines skips; non-zero balance skips; more than
one account skips; first account not reconcilable skips; more than one
partner crashes (the `TypeError` described on `RecOutcome`); otherwise
the group is linked. -/
def group_outcome (isZero : Rat → Bool) (reconcilable : Nat → Bool)
    (g : List RecLine) : RecOutcome :=
  if g.length < 2 then RecOutcome.skip
  else if !(isZero (group_total g)) then RecOutcome.skip
  else if 1 < (distinct_accounts g).length then RecOutcome.skip
  else if !(reconcilable ((distinct_accounts g).headD 0)) then RecOutcome.skip
  else if 1 < (distinct_partners g).length then RecOutcome.crash
  else RecOutcome.link

/-- The group loop of `reconcile_move_lines` over the `torec` items in
insertion order: returns the groups whose `reconcile()` call was made and
whether the run aborted with the partner-warning `TypeError`.  Groups
after a crashing one are never reached; groups linked before it stay
linked (the calls already happened). -/
def reconcile_loop (isZero : Rat → Bool) (reconcilable : Nat → Bool) :
    List (String × List RecLine) → List (String × List RecLine) × Bool
  | [] => ([], false)
  | (r, g) :: rest =>
    match group_outcome isZero reconcilable g with
    | RecOutcome.skip => reconcile_loop isZero reconcilable rest
    | RecOutcome.crash => ([], true)
    | RecOutcome.link =>
      let res := reconcile_loop isZero reconcilable rest
      ((r, g) :: res.1, res.2)

/-- `reconcile_move_lines` (source lines 849-900): group the tagged lines
by reconcile mark, then run the guard loop; first component the linked
groups, second component `true` when the run aborted with the
partner-warning `TypeError`. -/
def reconcile_move_lines (isZero : Rat → Bool) (reconcilable : Nat → Bool)
    (lines : List RecLine) : List (String × List RecLine) × Bool :=
  reconcile_loop isZero reconcilable (groupByRef lines)

theorem dl_acc_sub {α : Type} [BEq α] (l : List α) :
    ∀ acc x, x ∈ acc → x ∈ l.foldl dlStep acc := by
  induction l with
  | nil => intro acc x h; exact h
  | cons y ys ih =>
    intro acc x h
    rw [List.foldl_cons]
    apply ih
    unfold dlStep
    split
    · exact h
    · exact List.mem_append_left _ h

theorem dl_mem {α : Type} [BEq α] [LawfulBEq α] (l : List α) :
    ∀ acc x, x ∈ l → x ∈ l.foldl dlStep acc := by
  induction l with
  | nil => intro acc x h; simp at h
  | cons y ys ih =>
    intro acc x h
    rw [List.foldl_cons]
    rcases List.mem_cons.mp h with h1 | h2
    · subst h1
      apply dl_acc_sub
      unfold dlStep
      split
      · rename_i hc
        exact (List.elem_iff).mp hc
      · exact List.mem_append_right _ (List.mem_singleton.mpr rfl)
    · exact ih _ x h2

theorem dl_const_aux {α : Type} [BEq α] [LawfulBEq α] (a : α) (l : List α)
    (h : ∀ x ∈ l, x = a) :
    ∀ acc, a ∈ acc → l.foldl dlStep acc = acc := by
  induction l with
  | nil => intro acc _; rfl
  | cons y ys ih =>
    intro acc hacc
    rw [List.foldl_cons]
    have hy : y = a := h y (List.mem_cons_self y ys)
    have hcon : acc.contains y = true := by
      rw [hy]
      exact (List.elem_iff).mpr hacc
    have hstep : dlStep acc y = acc := by unfold dlStep; rw [hcon]; rfl
    rw [hstep]
    exact ih (fun x hx => h x (List.mem_cons_of_mem y hx)) acc hacc

theorem dl_const {α : Type} [BEq α] [LawfulBEq α] (a : α) (l : List α)
    (hne : l ≠ []) (h : ∀ x ∈ l, x = a) : distinctList l = [a] := by
  cases l with
  | nil => exact absurd rfl hne
  | cons y ys =>
    unfold distinctList
    rw [List.foldl_cons]
    have hy : y = a := h y (List.mem_cons_self y ys)
    have hstep : dlStep ([] : List α) y = [a] := by
      unfold dlStep
      rw [hy]
      rfl
    rw [hstep]
    exact dl_const_aux a ys (fun x hx => h x (List.mem_cons_of_mem y hx)) [a]
      (List.mem_singleton.mpr rfl)

theorem dl_singleton_of_le_one {α : Type} [BEq α] [LawfulBEq α] (l : List α)
    (hne : l ≠ []) (hlen : ¬(1 < (distinctList l).length)) :
    ∃ b, distinctList l = [b] ∧ ∀ x ∈ l, x = b := by
  cases hd : distinctList l with
  | nil =>
    obtain ⟨y, hy⟩ := List.exists_mem_of_ne_nil l hne
    have := dl_mem l [] y hy
    rw [show l.foldl dlStep [] = distinctList l from rfl, hd] at this
    simp at this
  | cons b bs =>
    cases bs with
    | nil =>
      refine ⟨b, rfl, ?_⟩
      intro x hx
      have := dl_mem l [] x hx
      rw [show l.foldl dlStep [] = distinctList l from rfl, hd] at this
      simpa using this
    | cons c cs =>
      rw [hd] at hlen
      simp at hlen

/-- The guard chain links a group iff every invariant holds: at least 2
lines, currency-zero total, a single shared reconcilable account, and at
most one distinct partner key. -/
theorem group_outcome_link_iff (isZero : Rat → Bool)
    (reconcilable : Nat → Bool) (g : List RecLine) :
    group_outcome isZero reconcilable g = RecOutcome.link
      ↔ (2 ≤ g.length ∧ isZero (group_total g) = true
         ∧ (∃ a, (∀ x ∈ g, x.account_id = a) ∧ reconcilable a = true)
         ∧ ∀ x ∈ g, ∀ y ∈ g, x.partner_key = y.partner_key) := by
  constructor
  · intro h
    unfold group_outcome at h
    by_cases h1 : g.length < 2
    · rw [if_pos h1] at h; simp at h
    · rw [if_neg h1] at h
      by_cases h2 : (!(isZero (group_total g))) = true
      · rw [if_pos h2] at h; simp at h
      · rw [if_neg h2] at h
        by_cases h3 : 1 < (distinct_accounts g).length
        · rw [if_pos h3] at h; simp at h
        · rw [if_neg h3] at h
          by_cases h4 : (!(reconcilable ((distinct_accounts g).headD 0))) = true
          · rw [if_pos h4] at h; simp at h
          · rw [if_neg h4] at h
            by_cases h5 : 1 < (distinct_partners g).length
            · rw [if_pos h5] at h; simp at h
            · have hlen : 2 ≤ g.length := by omega
              have hne : g ≠ [] := by
                intro hc
                subst hc
                simp at hlen
              have hnem : g.map (fun l => l.account_id) ≠ [] := by
                simpa using hne
              obtain ⟨b, hb, hall⟩ := dl_singleton_of_le_one _ hnem h3
              have hz : isZero (group_total g) = true := by
                cases hx : isZero (group_total g)
                · rw [hx] at h2; simp at h2
                · rfl
              refine ⟨hlen, hz, ⟨b, ?_, ?_⟩, ?_⟩
              · intro x hx
                exact hall _ (List.mem_map_of_mem _ hx)
              · have hhd : (distinct_accounts g).headD 0 = b := by
                  unfold distinct_accounts
                  rw [hb]
                  rfl
                rw [hhd] at h4
                cases hx : reconcilable b
                · rw [hx] at h4; simp at h4
                · rfl
              · intro x hx y hy
                have hnem2 : g.map (fun l => l.partner_key) ≠ [] := by
                  simpa using hne
                obtain ⟨p, hp, hallp⟩ := dl_singleton_of_le_one _ hnem2 h5
                rw [hallp _ (List.mem_map_of_mem _ hx),
                  hallp _ (List.mem_map_of_mem _ hy)]
  · rintro ⟨hlen, hz, ⟨a, hacc, hrec⟩, hpart⟩
    have hne : g ≠ [] := by
      intro hc
      subst hc
      simp at hlen
    have hda : distinct_accounts g = [a] := by
      unfold distinct_accounts
      apply dl_const
      · simpa using hne
      · intro x hx
        obtain ⟨l0, hl0, he⟩ := List.mem_map.mp hx
        rw [← he]
        exact hacc l0 hl0
    have hdp : ∃ p, distinct_partners g = [p] := by
      obtain ⟨y, hy⟩ := List.exists_mem_of_ne_nil g hne
      refine ⟨y.partner_key, ?_⟩
      unfold distinct_partners
      apply dl_const
      · simpa using hne
      · intro x hx
        obtain ⟨l0, hl0, he⟩ := List.mem_map.mp hx
        rw [← he]
        exact hpart l0 hl0 y hy
    obtain ⟨p, hp⟩ := hdp
    unfold group_outcome
    rw [if_neg (by omega), if_neg (by rw [hz]; simp), hda, hp]
    simp [hrec]

/-- The guard chain crashes on a group iff everything up to the partner
guard passes (at least 2 lines, currency-zero total, single shared
reconcilable account) but more than one distinct partner key occurs. -/
theorem group_outcome_crash_iff (isZero : Rat → Bool)
    (reconcilable : Nat → Bool) (g : List RecLine) :
    group_outcome isZero reconcilable g = RecOutcome.crash
      ↔ (2 ≤ g.length ∧ isZero (group_total g) = true
         ∧ (∃ a, (∀ x ∈ g, x.account_id = a) ∧ reconcilable a = true)
         ∧ 1 < (distinct_partners g).length) := by
  constructor
  · intro h
    unfold group_outcome at h
    by_cases h1 : g.length < 2
    · rw [if_pos h1] at h; simp at h
    · rw [if_neg h1] at h
      by_cases h2 : (!(isZero (group_total g))) = true
      · rw [if_pos h2] at h; simp at h
      · rw [if_neg h2] at h
        by_cases h3 : 1 < (distinct_accounts g).length
        · rw [if_pos h3] at h; simp at h
        · rw [if_neg h3] at h
          by_cases h4 : (!(reconcilable ((distinct_accounts g).headD 0))) = true
          · rw [if_pos h4] at h; simp at h
          · rw [if_neg h4] at h
            by_cases h5 : 1 < (distinct_partners g).length
            · have hlen : 2 ≤ g.length := by omega
              have hne : g ≠ [] := by
                intro hc
                subst hc
                simp at hlen
              have hnem : g.map (fun l => l.account_id) ≠ [] := by
                simpa using hne
              obtain ⟨b, hb, hall⟩ := dl_singleton_of_le_one _ hnem h3
              have hz : isZero (group_total g) = true := by
                cases hx : isZero (group_total g)
                · rw [hx] at h2; simp at h2
                · rfl
              refine ⟨hlen, hz, ⟨b, ?_, ?_⟩, h5⟩
              · intro x hx
                exact hall _ (List.mem_map_of_mem _ hx)
              · have hhd : (distinct_accounts g).headD 0 = b := by
                  unfold distinct_accounts
                  rw [hb]
                  rfl
                rw [hhd] at h4
                cases hx : reconcilable b
                · rw [hx] at h4; simp at h4
                · rfl
            · rw [if_neg h5] at h; simp at h
  · rintro ⟨hlen, hz, ⟨a, hacc, hrec⟩, hp5⟩
    have hne : g ≠ [] := by
      intro hc
      subst hc
      simp at hlen
    have hda : distinct_accounts g = [a] := by
      unfold distinct_accounts
      apply dl_const
      · simpa using hne
      · intro x hx
        obtain ⟨l0, hl0, he⟩ := List.mem_map.mp hx
        rw [← he]
        exact hacc l0 hl0
    unfold group_outcome
    rw [if_neg (by omega), if_neg (by rw [hz]; simp), hda]
    simp [hrec, hp5]

/-! ### FEC text and Nibelis parsers (C10) -/

/-- One raw record as produced by the csv reader for `fectxt2pivot`
(source lines 301-353); the delimiter sniffing and decoding are external. -/
structure FecRow where
  journal : String
  move_name : String
  date : String
  account : String
  partner_ref : String
  piece_ref : String
  name : String
  debit : String
  credit : String
  reconcile_ref : String
  deriving DecidableEq, Repr

/-- The row loop of `fectxt2pivot`: `i` counts physical rows from 1 and the
first row is skipped unconditionally (`if i == 1: continue`); `pn` models
`float()`, `pd` models `strptime(_, '%Y%m%d')`; a parse failure aborts. -/
def fectxt_go (pn : String → Option Rat) (pd : String → Option Int) :
    Nat → List FecRow → Except ImpErr (List PivotLine)
  | _, [] => .ok []
  | i, r :: rest =>
    if i == 1 then fectxt_go pn pd (i + 1) rest
    else
      let creditS := if r.credit == "" then "0" else r.credit
      let debitS := if r.debit == "" then "0" else r.debit
      match pn (replaceChar ',' '.' creditS), pn (replaceChar ',' '.' debitS),
          pd r.date with
      | Option.some c, Option.some d, Option.some dt =>
        match fectxt_go pn pd (i + 1) rest with
        | .error e => .error e
        | .ok ps =>
          .ok ({ line := .vint i, date := .vdate dt, journal := .vstr r.journal,
                 account := .vstr r.account, partner := .vstr r.partner_ref,
                 analytic := .none, name := .vstr r.name, debit := .vnum d,
                 credit := .vnum c, ref := .vstr r.piece_ref,
                 reconcile_ref := .vstr r.reconcile_ref,
                 move_name := .vstr r.move_name } :: ps)
      | _, _, _ => .error .crash

/-- `fectxt2pivot` (source lines 301-353).  The wizard's `file_with_header`
option is available on `self` but never read by this parser — it is taken
as an argument here and ignored, exactly as the source ignores it. -/
def fectxt2pivot (pn : String → Option Rat) (pd : String → Option Int)
    (file_with_header : Bool) (rows : List FecRow) : Except ImpErr (List PivotLine) :=
  fectxt_go pn pd 1 rows

/-- One raw record for `nibelis2pivot` (source lines 528-564). -/
structure NibRow where
  journal : String
  date : String
  account : String
  amount : String
  sign : String
  name : String
  analytic : String
  deriving DecidableEq, Repr

/-- The row loop of `nibelis2pivot`: the first row is skipped
unconditionally; `credit = sign == 'C' and amount or False` (so a zero
amount yields `False`); the analytic key is set only when truthy. -/
def nibelis_go (pn : String → Option Rat) (pd : String → Option Int) :
    Nat → List NibRow → Except ImpErr (List PivotLine)
  | _, [] => .ok []
  | i, r :: rest =>
    if i == 1 then nibelis_go pn pd (i + 1) rest
    else
      match pn (replaceChar ',' '.' r.amount), pd r.date with
      | Option.some amount, Option.some dt =>
        match nibelis_go pn pd (i + 1) rest with
        | .error e => .error e
        | .ok ps =>
          .ok ({ line := .vint i, date := .vdate dt, journal := .vstr r.journal,
                 account := .vstr r.account, partner := .none,
                 analytic := if r.analytic == "" then .none else .vstr r.analytic,
                 name := .vstr r.name,
                 debit := if r.sign == "D" && !(amount == 0)
                   then PValue.vnum amount else PValue.pfalse,
                 credit := if r.sign == "C" && !(amount == 0)
                   then PValue.vnum amount else PValue.pfalse,
                 ref := .none, reconcile_ref := .none,
                 move_name := .none } :: ps)
      | _, _ => .error .crash

/-- `nibelis2pivot` (source lines 528-564); like `fectxt2pivot` it never
reads the `file_with_header` option. -/
def nibelis2pivot (pn : String → Option Rat) (pd : String → Option Int)
    (file_with_header : Bool) (rows : List NibRow) : Except ImpErr (List PivotLine) :=
  nibelis_go pn pd 1 rows

/-- The record's `line` field is an int of value at least 2. -/
def lineGE2 (l : PivotLine) : Bool :=
  match l.line with
  | .vint k => decide (2 ≤ k)
  | _ => false

theorem fectxt_go_lines (pn : String → Option Rat) (pd : String → Option Int)
    (rows : List FecRow) :
    ∀ i res, 1 ≤ i → fectxt_go pn pd i rows = Except.ok res
      → ∀ l ∈ res, lineGE2 l = true := by
  induction rows with
  | nil =>
    intro i res _ h l hl
    unfold fectxt_go at h
    injection h with h'
    rw [← h'] at hl
    simp at hl
  | cons r rest ih =>
    intro i res hi h l hl
    unfold fectxt_go at h
    by_cases h1 : (i == 1) = true
    · rw [if_pos h1] at h
      exact ih (i + 1) res (by omega) h l hl
    · rw [if_neg h1] at h
      simp only [] at h
      cases hc : pn (replaceChar ',' '.' (if r.credit == "" then "0" else r.credit)) with
      | none => rw [hc] at h; simp at h
      | some c =>
        rw [hc] at h
        cases hdbt : pn (replaceChar ',' '.' (if r.debit == "" then "0" else r.debit)) with
        | none => rw [hdbt] at h; simp at h
        | some d =>
          rw [hdbt] at h
          cases hdt : pd r.date with
          | none => rw [hdt] at h; simp at h
          | some dt =>
            rw [hdt] at h
            simp only [] at h
            cases hrest : fectxt_go pn pd (i + 1) rest with
            | error e => rw [hrest] at h; simp at h
            | ok ps =>
              rw [hrest] at h
              injection h with h'
              rw [← h'] at hl
              rcases List.mem_cons.mp hl with he | hm
              · subst he
                have h2 : 2 ≤ i := by
                  have : ¬(i = 1) := by simpa using h1
                  omega
                unfold lineGE2
                simp only []
                exact decide_eq_true (by exact_mod_cast h2)
              · exact ih (i + 1) ps (by omega) hrest l hm

theorem nibelis_go_lines (pn : String → Option Rat) (pd : String → Option Int)
    (rows : List NibRow) :
    ∀ i res, 1 ≤ i → nibelis_go pn pd i rows = Except.ok res
      → ∀ l ∈ res, lineGE2 l = true := by
  induction rows with
  | nil =>
    intro i res _ h l hl
    unfold nibelis_go at h
    injection h with h'
    rw [← h'] at hl
    simp at hl
  | cons r rest ih =>
    intro i res hi h l hl
    unfold nibelis_go at h
    by_cases h1 : (i == 1) = true
    · rw [if_pos h1] at h
      exact ih (i + 1) res (by omega) h l hl
    · rw [if_neg h1] at h
      cases hc : pn (replaceChar ',' '.' r.amount) with
      | none => rw [hc] at h; simp at h
      | some amount =>
        rw [hc] at h
        cases hdt : pd r.date with
        | none => rw [hdt] at h; simp at h
        | some dt =>
          rw [hdt] at h
          simp only [] at h
          cases hrest : nibelis_go pn pd (i + 1) rest with
          | error e => rw [hrest] at h; simp at h
          | ok ps =>
            rw [hrest] at h
            injection h with h'
            rw [← h'] at hl
            rcases List.mem_cons.mp hl with he | hm
            · subst he
              have h2 : 2 ≤ i := by
                have : ¬(i = 1) := by simpa using h1
                omega
              unfold lineGE2
              simp only []
              exact decide_eq_true (by exact_mod_cast h2)
            · exact ih (i + 1) ps (by omega) hrest l hm

/-- C10: both the FEC-text and the Nibelis parsers discard the first
physical row unconditionally — the output does not depend on the
`Has Header Line` option at all — and every record either parser produces
carries a line number of 2 or greater. -/
theorem parsers_always_skip_header (pn : String → Option Rat)
    (pd : String → Option Int) (b : Bool) (frows : List FecRow)
    (nrows : List NibRow) :
    (∀ res, fectxt2pivot pn pd b frows = Except.ok res
      → ∀ l ∈ res, lineGE2 l = true)
    ∧ fectxt2pivot pn pd b frows = fectxt2pivot pn pd (!b) frows
    ∧ (∀ res, nibelis2pivot pn pd b nrows = Except.ok res
      → ∀ l ∈ res, lineGE2 l = true)
    ∧ nibelis2pivot pn pd b nrows = nibelis2pivot pn pd (!b) nrows := by
  refine ⟨?_, rfl, ?_, rfl⟩
  · intro res h
    exact fectxt_go_lines pn pd frows 1 res (by omega) h
  · intro res h
    exact nibelis_go_lines pn pd nrows 1 res (by omega) h

/-- Concrete instantiation of `parsers_always_skip_header`: a two-row FEC
file yields exactly one record and it carries line number 2. -/
def fecRow0 : FecRow :=
  { journal := "VT", move_name := "OD1", date := "20240101",
    account := "411000", partner_ref := "", piece_ref := "", name := "x",
    debit := "0", credit := "100", reconcile_ref := "" }

def pnOne : String → Option Rat := fun _ => Option.some 0

def pdOne : String → Option Int := fun _ => Option.some 100

/-- The pivot record produced for the second physical row of a two-row
FEC file under `pnOne`/`pdOne`. -/
def fecPL2 : PivotLine :=
  { line := .vint 2, date := .vdate 100, journal := .vstr "VT",
    account := .vstr "411000", partner := .vstr "", analytic := .none,
    name := .vstr "x", debit := .vnum 0, credit := .vnum 0, ref := .vstr "",
    reconcile_ref := .vstr "", move_name := .vstr "OD1" }

theorem parsers_always_skip_header_witness : lineGE2 fecPL2 = true :=
  (parsers_always_skip_header pnOne pdOne false [fecRow0, fecRow0] []).1
    [fecPL2] (by decide) fecPL2 (by decide)

/-- Two balanced lines tagged `A1` on the same reconcilable account,
with no partner: a group every guard accepts. -/
def recLineW1 : RecLine :=
  { credit := 50, debit := 0, account_id := 3, partner_key := Option.none,
    import_reconcile := Option.some "A1" }

def recLineW2 : RecLine :=
  { credit := 0, debit := 50, account_id := 3, partner_key := Option.none,
    import_reconcile := Option.some "A1" }

/-- Two balanced lines tagged `P2` on the same reconcilable account but
with two distinct partners: a group that reaches the partner guard and
crashes there. -/
def recLineP1 : RecLine :=
  { credit := 20, debit := 0, account_id := 3, partner_key := Option.some 1,
    import_reconcile := Option.some "P2" }

def recLineP2 : RecLine :=
  { credit := 0, debit := 20, account_id := 3, partner_key := Option.some 2,
    import_reconcile := Option.some "P2" }

def reconcilableW : Nat → Bool := fun a => a == 3

/-- C7: the reconciler's guard chain links a group exactly when every
invariant holds (at least 2 lines, currency-zero total, single shared
reconcilable account, at most one distinct partner key), and it reaches
the more-than-one-partner guard exactly when everything before it passes;
but that guard does not skip: its warning joins the int-or-`False`
partner keys, raising `TypeError`, and the abort also swallows later
valid groups — in the concrete run the group tagged `P2` (two partners)
crashes the loop and the fully valid group tagged `A1` behind it is
never linked. -/
theorem reconcile_partner_warning_crash :
    (∀ (isZero : Rat → Bool) (reconcilable : Nat → Bool) (g : List RecLine),
      group_outcome isZero reconcilable g = RecOutcome.link
        ↔ (2 ≤ g.length ∧ isZero (group_total g) = true
           ∧ (∃ a, (∀ x ∈ g, x.account_id = a) ∧ reconcilable a = true)
           ∧ ∀ x ∈ g, ∀ y ∈ g, x.partner_key = y.partner_key))
    ∧ (∀ (isZero : Rat → Bool) (reconcilable : Nat → Bool) (g : List RecLine),
      group_outcome isZero reconcilable g = RecOutcome.crash
        ↔ (2 ≤ g.length ∧ isZero (group_total g) = true
           ∧ (∃ a, (∀ x ∈ g, x.account_id = a) ∧ reconcilable a = true)
           ∧ 1 < (distinct_partners g).length))
    ∧ group_outcome isZeroQ reconcilableW [recLineP1, recLineP2]
        = RecOutcome.crash
    ∧ group_outcome isZeroQ reconcilableW [recLineW1, recLineW2]
        = RecOutcome.link
    ∧ groupByRef [recLineP1, recLineP2, recLineW1, recLineW2]
        = [("P2", [recLineP1, recLineP2]), ("A1", [recLineW1, recLineW2])]
    ∧ reconcile_move_lines isZeroQ reconcilableW
        [recLineP1, recLineP2, recLineW1, recLineW2] = ([], true) :=
  ⟨group_outcome_link_iff, group_outcome_crash_iff,
    by decide, by decide, by decide, by decide⟩

/-- Concrete instantiation of `reconcile_partner_warning_crash`: the
valid `A1` group on its own is linked, as the link-iff direction says. -/
theorem reconcile_partner_crash_witness :
    group_outcome isZeroQ reconcilableW [recLineW1, recLineW2]
      = RecOutcome.link :=
  (reconcile_partner_warning_crash.1 isZeroQ reconcilableW
      [recLineW1, recLineW2]).mpr
    ⟨by decide, by decide, ⟨3, by decide, by decide⟩, by decide⟩
